import Mathlib

/-!
# Formal model of the dynablock authentication and session core

This file embeds the core of the dynablock repository in Lean 4:

* the token codec used by the mock auth API, which is
  btoa(JSON.stringify(payload)) on encode and JSON.parse(atob(token)) on
  decode (src/src/modules/auth-module/routes/routes.jsx);
* the mock user store and the authAPI operations register, login and
  verifyToken (same file);
* the process-wide session state holder sessionManager with its operations
  login, logout, updateUser, verifyToken, getSessionDuration and
  restoreSession (src/src/main.js).

JavaScript strings are modelled as lists of UTF-16 code units
(List Nat).  Timestamps such as Date.now() and token expiries are
modelled as integers (milliseconds).  The Math.floor division in
getSessionDuration is modelled as integer floor division, exact on the
integer inputs that arise.  JSON.stringify of the fixed token record
produces the canonical serialization modelled by jsonOfPayload below,
with the well-formed QuoteJSONString escaping of ES2019 on the email.
JSON.parse is modelled in full (jsonParse below): any ECMA-404 text, any
member order, duplicate keys, every value shape; number literals are
carried as exact rationals, which agree with the binary64 numbers
JavaScript produces on every integral value this application builds and
compares.  The canonical parser parsePayload recognizes the exact record
shape the encoder emits; the session state holder of main.js is modelled
over it, and the general jsonParse model subsumes it where the two meet.
The conversions the verify lookup performs (property access, ToNumber
coercion, ToString of arrays, strict equality) are modelled in the
property access section, and the ECMA-404 grammar checker of the JSON
text grammar section states well-formedness independently of the parser.
-/

/-- Code units of a Lean string literal, used to write JS strings. -/
def jstr (s : String) : List Nat := s.data.map Char.toNat

/-! ## Base64: the btoa and atob built-ins

btoa maps a string of code units below 256 to its base64 encoding and
throws (modelled by none) when a unit is 256 or larger.  atob implements
forgiving-base64 decoding: strip ASCII whitespace, strip up to two
trailing padding signs when the length is a multiple of four, fail when
the remaining length is 1 mod 4 or a character is outside the alphabet,
and reassemble the sextets into bytes, discarding leftover bits. -/

/-- Character of the base64 alphabet at index n (A-Z, a-z, 0-9, plus, slash). -/
def b64char (n : Nat) : Nat :=
  if n < 26 then 65 + n
  else if n < 52 then 97 + (n - 26)
  else if n < 62 then 48 + (n - 52)
  else if n = 62 then 43
  else 47

/-- Index of a code unit in the base64 alphabet, none when outside it. -/
def b64index (c : Nat) : Option Nat :=
  if 65 ≤ c ∧ c ≤ 90 then some (c - 65)
  else if 97 ≤ c ∧ c ≤ 122 then some (c - 97 + 26)
  else if 48 ≤ c ∧ c ≤ 57 then some (c - 48 + 52)
  else if c = 43 then some 62
  else if c = 47 then some 63
  else none

/-- Base64 encoding of a byte list, with padding (code 61). -/
def b64encode : List Nat → List Nat
  | a :: b :: c :: rest =>
      b64char (a / 4) :: b64char (a % 4 * 16 + b / 16) ::
        b64char (b % 16 * 4 + c / 64) :: b64char (c % 64) :: b64encode rest
  | [a] => [b64char (a / 4), b64char (a % 4 * 16), 61, 61]
  | [a, b] => [b64char (a / 4), b64char (a % 4 * 16 + b / 16), b64char (b % 16 * 4), 61]
  | [] => []

/-- Base64 encoding without the trailing padding signs. -/
def b64encodeNoPad : List Nat → List Nat
  | a :: b :: c :: rest =>
      b64char (a / 4) :: b64char (a % 4 * 16 + b / 16) ::
        b64char (b % 16 * 4 + c / 64) :: b64char (c % 64) :: b64encodeNoPad rest
  | [a] => [b64char (a / 4), b64char (a % 4 * 16)]
  | [a, b] => [b64char (a / 4), b64char (a % 4 * 16 + b / 16), b64char (b % 16 * 4)]
  | [] => []

/-- The btoa built-in: base64 of the code units, failing above 255. -/
def btoaJS (s : List Nat) : Option (List Nat) :=
  if s.all (fun c => c < 256) then some (b64encode s) else none

/-- ASCII whitespace stripped by forgiving-base64. -/
def isB64Space (c : Nat) : Bool :=
  c = 9 || c = 10 || c = 12 || c = 13 || c = 32

/-- Drop one trailing padding sign when present. -/
def dropIfPad (l : List Nat) : List Nat :=
  if l.getLast? = some 61 then l.dropLast else l

/-- Drop up to two trailing padding signs. -/
def stripPad (l : List Nat) : List Nat := dropIfPad (dropIfPad l)

/-- Reassemble sextets into bytes, discarding leftover bits; a single
trailing sextet is a failure. -/
def sextetsToBytes : List Nat → Option (List Nat)
  | x :: y :: z :: w :: rest =>
      (sextetsToBytes rest).map
        (fun bs => (x * 4 + y / 16) :: (y % 16 * 16 + z / 4) :: (z % 4 * 64 + w) :: bs)
  | [] => some []
  | [_] => none
  | [x, y] => some [x * 4 + y / 16]
  | [x, y, z] => some [x * 4 + y / 16, y % 16 * 16 + z / 4]

/-- Map every character to its alphabet index, failing on a character
outside the alphabet. -/
def mapB64Index : List Nat → Option (List Nat)
  | [] => some []
  | c :: cs =>
      match b64index c, mapB64Index cs with
      | some d, some ds => some (d :: ds)
      | _, _ => none

/-- Whitespace removal step of forgiving-base64. -/
def atobWS (s : List Nat) : List Nat := s.filter (fun c => !isB64Space c)

/-- Padding removal step of forgiving-base64: only applies when the
length is a multiple of four. -/
def atobStrip (t : List Nat) : List Nat :=
  if t.length % 4 = 0 then stripPad t else t

/-- The atob built-in (forgiving-base64 decode), none when it throws. -/
def atobJS (s : List Nat) : Option (List Nat) :=
  if (atobStrip (atobWS s)).length % 4 = 1 then none
  else (mapB64Index (atobStrip (atobWS s))).bind sextetsToBytes

/-! ## The token payload and its JSON serialization

The tokens issued by authAPI.login carry the record
written as userId, email, exp in that key order. -/

/-- The decoded token record. -/
structure TokenPayload where
  userId : Int
  email : List Nat
  exp : Int
deriving DecidableEq, Repr

/-- Lowercase hexadecimal digit character for a value below 16. -/
def hexDigitChar (n : Nat) : Nat := if n < 10 then 48 + n else 87 + n

/-- JSON.stringify escaping of one code unit outside the surrogate
ranges: the short escapes, and a unicode escape for a control character
below 32.  Every other unit, including U+2028 and U+2029, passes through
raw (ECMA-262 QuoteJSONString). -/
def escapeChar (c : Nat) : List Nat :=
  if c = 34 then [92, 34]
  else if c = 92 then [92, 92]
  else if c = 8 then [92, 98]
  else if c = 9 then [92, 116]
  else if c = 10 then [92, 110]
  else if c = 12 then [92, 102]
  else if c = 13 then [92, 114]
  else if c < 32 then [92, 117, 48, 48, hexDigitChar (c / 16), hexDigitChar (c % 16)]
  else [c]

/-- Leading (high) surrogate code unit test. -/
def isHiSur (c : Nat) : Bool := 55296 ≤ c && c ≤ 56319

/-- Trailing (low) surrogate code unit test. -/
def isLoSur (c : Nat) : Bool := 56320 ≤ c && c ≤ 57343

/-- The unicode escape of one code unit: backslash, u, and four
lowercase hexadecimal digits. -/
def surEscape (c : Nat) : List Nat :=
  [92, 117, hexDigitChar (c / 4096 % 16), hexDigitChar (c / 256 % 16),
   hexDigitChar (c / 16 % 16), hexDigitChar (c % 16)]

/-- JSON.stringify escaping of a whole string body, as the well-formed
QuoteJSONString of ES2019 performs it: a surrogate pair passes through
raw, an unpaired surrogate is escaped to an ASCII unicode escape, and
every other unit goes through escapeChar. -/
def escapeStr : List Nat → List Nat
  | [] => []
  | [c] => if isHiSur c || isLoSur c then surEscape c else escapeChar c
  | c :: d :: cs =>
      if isHiSur c then
        if isLoSur d then c :: d :: escapeStr cs
        else surEscape c ++ escapeStr (d :: cs)
      else if isLoSur c then surEscape c ++ escapeStr (d :: cs)
      else escapeChar c ++ escapeStr (d :: cs)

/-- Decimal digit characters, most significant first, with enough fuel;
structural recursion on the fuel keeps the definition kernel-computable. -/
def natCodesAux : Nat → Nat → List Nat
  | 0, _ => []
  | fuel + 1, n =>
      if n < 10 then [48 + n] else natCodesAux fuel (n / 10) ++ [48 + n % 10]

/-- Decimal digit characters of a natural number, most significant first. -/
def natCodes (n : Nat) : List Nat := natCodesAux (n + 1) n

/-- Decimal characters of an integer as JSON.stringify prints it. -/
def intCodes (n : Int) : List Nat :=
  if n < 0 then 45 :: natCodes n.natAbs else natCodes n.toNat

/-- JSON.stringify of the token record, key order userId, email, exp. -/
def jsonOfPayload (p : TokenPayload) : List Nat :=
  jstr "\x7b\"userId\":" ++ intCodes p.userId ++
    jstr ",\"email\":\"" ++ escapeStr p.email ++
    jstr "\",\"exp\":" ++ intCodes p.exp ++ jstr "\x7d"

/-! ## Parsing the canonical token JSON back -/

/-- Expect a literal prefix and return the remainder. -/
def expectLit : List Nat → List Nat → Option (List Nat)
  | [], s => some s
  | l :: ls, c :: cs => if c = l then expectLit ls cs else none
  | _ :: _, [] => none

/-- Decimal digit test on a code unit. -/
def isDigitCode (c : Nat) : Bool := 48 ≤ c && c ≤ 57

/-- Value accumulated by reading decimal digit characters left to right. -/
def digitsVal (a : Nat) (l : List Nat) : Nat :=
  l.foldl (fun x c => x * 10 + (c - 48)) a

/-- Whether the first code unit is a decimal digit. -/
def headDigit : List Nat → Bool
  | c :: _ => isDigitCode c
  | [] => false

/-- Consume a maximal run of decimal digits, accumulating the value. -/
def grabDigits : Nat → List Nat → Nat × List Nat
  | acc, c :: cs => if isDigitCode c then grabDigits (acc * 10 + (c - 48)) cs else (acc, c :: cs)
  | acc, [] => (acc, [])

/-- Parse a canonical natural number: a lone zero or a nonzero-led digit run. -/
def parseNatCanon : List Nat → Option (Nat × List Nat)
  | c :: cs =>
      if c = 48 then some (0, cs)
      else if isDigitCode c then some (grabDigits (c - 48) cs)
      else none
  | [] => none

/-- Parse a canonical integer, with an optional minus sign, no minus zero. -/
def parseIntCanon : List Nat → Option (Int × List Nat)
  | c :: cs =>
      if c = 45 then
        match parseNatCanon cs with
        | some (n, r) => if n = 0 then none else some (-(n : Int), r)
        | none => none
      else
        match parseNatCanon (c :: cs) with
        | some (n, r) => some ((n : Int), r)
        | none => none
  | [] => none

/-- Value of a lowercase hexadecimal digit character. -/
def parseHexDigit (c : Nat) : Option Nat :=
  if 48 ≤ c ∧ c ≤ 57 then some (c - 48)
  else if 97 ≤ c ∧ c ≤ 102 then some (c - 87)
  else none

/-- The unicode escapes the canonical serializer emits: control characters
other than the short-escaped ones, and the two line separators. -/
def uEscapeOk (v : Nat) : Bool :=
  (v < 32 && !(v = 8 || v = 9 || v = 10 || v = 12 || v = 13)) || v = 8232 || v = 8233

/-- Value of a short escape character, none when not a short escape. -/
def simpleUnescape (e : Nat) : Option Nat :=
  if e = 34 then some 34
  else if e = 92 then some 92
  else if e = 98 then some 8
  else if e = 116 then some 9
  else if e = 110 then some 10
  else if e = 102 then some 12
  else if e = 114 then some 13
  else none

/-- Parse a canonical JSON string body up to its closing quote, returning
the raw characters and the remainder after the quote. -/
def parseStrChars : List Nat → Option (List Nat × List Nat)
  | [] => none
  | c :: cs =>
      if c = 34 then some ([], cs)
      else if c = 92 then
        match cs with
        | [] => none
        | e :: cs2 =>
            if e = 117 then
              match cs2 with
              | h1 :: h2 :: h3 :: h4 :: cs3 =>
                  match parseHexDigit h1, parseHexDigit h2, parseHexDigit h3, parseHexDigit h4 with
                  | some d1, some d2, some d3, some d4 =>
                      let v := ((d1 * 16 + d2) * 16 + d3) * 16 + d4
                      if uEscapeOk v then
                        (parseStrChars cs3).map (fun pr => (v :: pr.1, pr.2))
                      else none
                  | _, _, _, _ => none
              | _ => none
            else
              match simpleUnescape e with
              | some r => (parseStrChars cs2).map (fun pr => (r :: pr.1, pr.2))
              | none => none
      else if 32 ≤ c ∧ c ≠ 8232 ∧ c ≠ 8233 then
        (parseStrChars cs).map (fun pr => (c :: pr.1, pr.2))
      else none

/-- Parse the canonical token JSON produced by jsonOfPayload. -/
def parsePayload (j : List Nat) : Option TokenPayload :=
  (expectLit (jstr "\x7b\"userId\":") j).bind fun r1 =>
  (parseIntCanon r1).bind fun pr2 =>
  (expectLit (jstr ",\"email\":\"") pr2.2).bind fun r3 =>
  (parseStrChars r3).bind fun pr4 =>
  (expectLit (jstr ",\"exp\":") pr4.2).bind fun r5 =>
  (parseIntCanon r5).bind fun pr6 =>
  (expectLit (jstr "\x7d") pr6.2).bind fun r7 =>
  if r7 = [] then some ⟨pr2.1, pr4.1, pr6.1⟩ else none

/-- Token encoding as authAPI.login performs it: btoa of the JSON record.
none models the InvalidCharacterError btoa raises on units above 255. -/
def encodeToken (p : TokenPayload) : Option (List Nat) :=
  btoaJS (jsonOfPayload p)

/-- Payload-shaped token decoding: atob, then the canonical payload
parser.  This selects the tokens whose decoded JSON is the exact record
shape the encoder emits; the session state holder of main.js is modelled
over it.  The general JSON.parse model follows below. -/
def decodeToken (s : List Nat) : Option TokenPayload :=
  (atobJS s).bind parsePayload

/-! ## The JSON.parse model

JSON.parse accepts the full ECMA-404 grammar: insignificant whitespace,
any member order, duplicate keys, any value shape.  Number values are
carried as the exact rational of the literal; JavaScript rounds them to
binary64, and on the integral values this application produces and
compares the two agree. -/

/-- A JSON value as JSON.parse produces it. -/
inductive JsonValue where
  | null
  | bool (b : Bool)
  | num (q : ℚ)
  | str (s : List Nat)
  | arr (elems : List JsonValue)
  | obj (fields : List (List Nat × JsonValue))

/-- The insignificant whitespace of the JSON grammar. -/
def isWsJson (c : Nat) : Bool := c = 32 || c = 9 || c = 10 || c = 13

/-- Skip JSON whitespace. -/
def skipWs : List Nat → List Nat
  | c :: cs => if isWsJson c then skipWs cs else c :: cs
  | [] => []

/-- Hexadecimal digit value, either case. -/
def hexVal (c : Nat) : Option Nat :=
  if 48 ≤ c ∧ c ≤ 57 then some (c - 48)
  else if 97 ≤ c ∧ c ≤ 102 then some (c - 87)
  else if 65 ≤ c ∧ c ≤ 70 then some (c - 55)
  else none

/-- Value of a two-character escape in a JSON string. -/
def jsonEscChar (e : Nat) : Option Nat :=
  if e = 34 then some 34
  else if e = 92 then some 92
  else if e = 47 then some 47
  else if e = 98 then some 8
  else if e = 102 then some 12
  else if e = 110 then some 10
  else if e = 114 then some 13
  else if e = 116 then some 9
  else none

/-- Parse a JSON string body after the opening quote: code units of the
denoted string and the remainder after the closing quote. -/
def jsonStrBody : List Nat → Option (List Nat × List Nat)
  | [] => none
  | c :: cs =>
      if c = 34 then some ([], cs)
      else if c = 92 then
        match cs with
        | [] => none
        | e :: cs2 =>
            if e = 117 then
              match cs2 with
              | h1 :: h2 :: h3 :: h4 :: cs3 =>
                  match hexVal h1, hexVal h2, hexVal h3, hexVal h4 with
                  | some d1, some d2, some d3, some d4 =>
                      (jsonStrBody cs3).map
                        (fun pr => ((((d1 * 16 + d2) * 16 + d3) * 16 + d4) :: pr.1, pr.2))
                  | _, _, _, _ => none
              | _ => none
            else
              match jsonEscChar e with
              | some r => (jsonStrBody cs2).map (fun pr => (r :: pr.1, pr.2))
              | none => none
      else if 32 ≤ c then (jsonStrBody cs).map (fun pr => (c :: pr.1, pr.2))
      else none

/-- Maximal run of decimal digit characters and the remainder. -/
def digitsList : List Nat → List Nat × List Nat
  | c :: cs =>
      if isDigitCode c then
        match digitsList cs with
        | (ds, r) => (c :: ds, r)
      else ([], c :: cs)
  | [] => ([], [])

/-- The rational m * 10 ^ e, built without rational arithmetic so that
concrete tokens evaluate in the kernel. -/
def qOfSci (m : Int) (e : Int) : ℚ :=
  if 0 ≤ e then mkRat (m * 10 ^ e.toNat) 1 else mkRat m (10 ^ (-e).toNat)

/-- Exponent digits of a JSON number, applied to mantissa and scale. -/
def jsonNumExpDigits (m : Int) (e10 : Int) (neg : Bool) (r : List Nat) :
    Option (ℚ × List Nat) :=
  match digitsList r with
  | ([], _) => none
  | (ds, r2) =>
      some (qOfSci m (if neg then e10 - digitsVal 0 ds else e10 + digitsVal 0 ds), r2)

/-- Optional exponent part of a JSON number. -/
def jsonNumExp (m : Int) (e10 : Int) (r : List Nat) : Option (ℚ × List Nat) :=
  match r with
  | e :: cs =>
      if e = 101 ∨ e = 69 then
        match cs with
        | c2 :: cs2 =>
            if c2 = 43 then jsonNumExpDigits m e10 false cs2
            else if c2 = 45 then jsonNumExpDigits m e10 true cs2
            else jsonNumExpDigits m e10 false (c2 :: cs2)
        | [] => jsonNumExpDigits m e10 false []
      else some (qOfSci m e10, e :: cs)
  | [] => some (qOfSci m e10, [])

/-- Optional fraction part of a JSON number, then the exponent. -/
def jsonNumTail (ip : Nat) (r : List Nat) : Option (ℚ × List Nat) :=
  match r with
  | c :: cs =>
      if c = 46 then
        match digitsList cs with
        | ([], _) => none
        | (ds, r2) =>
            jsonNumExp ((ip * 10 ^ ds.length + digitsVal 0 ds : Nat) : Int)
              (-(ds.length : Int)) r2
      else jsonNumExp (ip : Int) 0 (c :: cs)
  | [] => jsonNumExp (ip : Int) 0 []

/-- Magnitude of a JSON number: a lone zero or a nonzero-led digit run,
then fraction and exponent. -/
def jsonNumMag : List Nat → Option (ℚ × List Nat)
  | c :: cs =>
      if c = 48 then jsonNumTail 0 cs
      else if isDigitCode c then
        match digitsList cs with
        | (ds, r2) => jsonNumTail (digitsVal (c - 48) ds) r2
      else none
  | [] => none

/-- A JSON number with its optional minus sign. -/
def jsonNumber (r : List Nat) : Option (ℚ × List Nat) :=
  match r with
  | c :: cs =>
      if c = 45 then (jsonNumMag cs).map (fun pr => (-pr.1, pr.2))
      else jsonNumMag (c :: cs)
  | [] => none

/-- Parsing mode: a value, the members of an object, or the elements of
an array (first marks the position right after the opening bracket,
where the closing bracket is allowed). -/
inductive JMode where
  | val
  | mems (first : Bool)
  | elems (first : Bool)

/-- Parser output: a value, an object member list, or an element list. -/
inductive JOut where
  | v (x : JsonValue)
  | ms (l : List (List Nat × JsonValue))
  | es (l : List JsonValue)

/-- The recursive core of JSON.parse.  Fuel bounds the recursion depth;
every two fuel steps consume input, so 2 * length + 2 is enough. -/
def jsonRec : Nat → JMode → List Nat → Option (JOut × List Nat)
  | 0, _, _ => none
  | fuel + 1, JMode.val, r =>
      match r with
      | [] => none
      | c :: cs =>
          if c = 34 then (jsonStrBody cs).map (fun pr => (JOut.v (JsonValue.str pr.1), pr.2))
          else if c = 123 then
            match jsonRec fuel (JMode.mems true) cs with
            | some (JOut.ms l, r2) => some (JOut.v (JsonValue.obj l), r2)
            | _ => none
          else if c = 91 then
            match jsonRec fuel (JMode.elems true) cs with
            | some (JOut.es l, r2) => some (JOut.v (JsonValue.arr l), r2)
            | _ => none
          else if c = 116 then
            (expectLit (jstr "rue") cs).map (fun r2 => (JOut.v (JsonValue.bool true), r2))
          else if c = 102 then
            (expectLit (jstr "alse") cs).map (fun r2 => (JOut.v (JsonValue.bool false), r2))
          else if c = 110 then
            (expectLit (jstr "ull") cs).map (fun r2 => (JOut.v JsonValue.null, r2))
          else (jsonNumber (c :: cs)).map (fun pr => (JOut.v (JsonValue.num pr.1), pr.2))
  | fuel + 1, JMode.mems first, r =>
      match skipWs r with
      | [] => none
      | c :: cs =>
          if c = 125 then (if first then some (JOut.ms [], cs) else none)
          else if c = 34 then
            match jsonStrBody cs with
            | none => none
            | some (k, r2) =>
                match skipWs r2 with
                | [] => none
                | c2 :: cs2 =>
                    if c2 = 58 then
                      match jsonRec fuel JMode.val (skipWs cs2) with
                      | some (JOut.v v, r3) =>
                          match skipWs r3 with
                          | [] => none
                          | c3 :: cs3 =>
                              if c3 = 44 then
                                match jsonRec fuel (JMode.mems false) cs3 with
                                | some (JOut.ms l, r4) => some (JOut.ms ((k, v) :: l), r4)
                                | _ => none
                              else if c3 = 125 then some (JOut.ms [(k, v)], cs3)
                              else none
                      | _ => none
                    else none
          else none
  | fuel + 1, JMode.elems first, r =>
      match skipWs r with
      | [] => none
      | c :: cs =>
          if c = 93 then (if first then some (JOut.es [], cs) else none)
          else
            match jsonRec fuel JMode.val (c :: cs) with
            | some (JOut.v v, r2) =>
                match skipWs r2 with
                | [] => none
                | c2 :: cs2 =>
                    if c2 = 44 then
                      match jsonRec fuel (JMode.elems false) cs2 with
                      | some (JOut.es l, r3) => some (JOut.es (v :: l), r3)
                      | _ => none
                    else if c2 = 93 then some (JOut.es [v], cs2)
                    else none
            | _ => none

/-- JSON.parse: whole-input parse of the JSON grammar, none when it
throws a SyntaxError. -/
def jsonParse (j : List Nat) : Option JsonValue :=
  match jsonRec (2 * j.length + 2) JMode.val (skipWs j) with
  | some (JOut.v v, r2) => if skipWs r2 = [] then some v else none
  | _ => none

/-- The decode both verify operations perform: JSON.parse of atob, with
none modelling a thrown error of either step. -/
def jsonDecode (token : List Nat) : Option JsonValue :=
  (atobJS token).bind jsonParse

/-- The JSON value of the serialized token record. -/
def payloadObj (p : TokenPayload) : JsonValue :=
  JsonValue.obj [(jstr "userId", JsonValue.num (p.userId : ℚ)),
    (jstr "email", JsonValue.str p.email),
    (jstr "exp", JsonValue.num (p.exp : ℚ))]

/-! ## Property access and coercions of the verify operations

decoded.exp and decoded.userId are property reads on the parsed value:
a throw on null (caught by the surrounding try), the last binding on an
object, undefined elsewhere.  decoded.exp < Date.now() coerces the read
through ToPrimitive and ToNumber; undefined compares as NaN, strings go
through the string numeric grammar, arrays and plain objects through
their string rendering.  Number-to-string inside the array join prints
the exact decimal expansion (JavaScript prints the shortest binary64
form, which agrees on the values at double precision). -/

/-- A JS number: NaN, an infinity, or the exact rational value. -/
inductive JsNum where
  | nan
  | inf (neg : Bool)
  | val (q : ℚ)

/-- The whitespace and line terminators trimmed by ToNumber on strings. -/
def isJsTrimWs (c : Nat) : Bool :=
  c = 9 || c = 10 || c = 11 || c = 12 || c = 13 || c = 32 || c = 160 || c = 5760 ||
  (8192 ≤ c && c ≤ 8202) || c = 8232 || c = 8233 || c = 8239 || c = 8287 ||
  c = 12288 || c = 65279

def jsTrim (s : List Nat) : List Nat :=
  ((s.dropWhile isJsTrimWs).reverse.dropWhile isJsTrimWs).reverse

/-- Digits of a radix literal (hex, octal, binary), most significant
first. -/
def radixValAux (base acc : Nat) : List Nat → Option Nat
  | [] => some acc
  | c :: cs =>
      match hexVal c with
      | some d => if d < base then radixValAux base (acc * base + d) cs else none
      | none => none

def strRadix (base : Nat) (r : List Nat) : JsNum :=
  match r with
  | [] => JsNum.nan
  | _ =>
      match radixValAux base 0 r with
      | some n => JsNum.val ((n : Nat) : ℚ)
      | none => JsNum.nan

def strExpDigitsAll (m : Int) (e10 : Int) (neg : Bool) (r : List Nat) : Option ℚ :=
  match digitsList r with
  | ([], _) => none
  | (ds, r2) =>
      if r2 = [] then
        some (qOfSci m (if neg then e10 - digitsVal 0 ds else e10 + digitsVal 0 ds))
      else none

def strExpAll (m : Int) (e10 : Int) (r : List Nat) : Option ℚ :=
  match r with
  | [] => some (qOfSci m e10)
  | e :: cs =>
      if e = 101 ∨ e = 69 then
        match cs with
        | 43 :: cs2 => strExpDigitsAll m e10 false cs2
        | 45 :: cs2 => strExpDigitsAll m e10 true cs2
        | _ => strExpDigitsAll m e10 false cs
      else none

/-- The unsigned decimal string numeric literal, whole-input. -/
def strUnsignedDec (r : List Nat) : Option ℚ :=
  match r with
  | 46 :: cs =>
      match digitsList cs with
      | ([], _) => none
      | (ds, r2) => strExpAll ((digitsVal 0 ds : Nat) : Int) (-(ds.length : Int)) r2
  | _ =>
      match digitsList r with
      | ([], _) => none
      | (ds, r2) =>
          match r2 with
          | 46 :: cs2 =>
              match digitsList cs2 with
              | (fs, r3) =>
                  strExpAll ((digitsVal 0 ds * 10 ^ fs.length + digitsVal 0 fs : Nat) : Int)
                    (-(fs.length : Int)) r3
          | _ => strExpAll ((digitsVal 0 ds : Nat) : Int) 0 r2

def strSignedDec (neg : Bool) (r : List Nat) : JsNum :=
  if r = jstr "Infinity" then JsNum.inf neg
  else
    match strUnsignedDec r with
    | some q => JsNum.val (if neg then -q else q)
    | none => JsNum.nan

/-- The trimmed string numeric literal: empty is zero, a sign selects a
decimal literal, a 0x, 0o or 0b prefix a radix literal. -/
def strNumOfTrimmed : List Nat → JsNum
  | [] => JsNum.val 0
  | 43 :: r => strSignedDec false r
  | 45 :: r => strSignedDec true r
  | 48 :: x :: r2 =>
      if x = 120 ∨ x = 88 then strRadix 16 r2
      else if x = 111 ∨ x = 79 then strRadix 8 r2
      else if x = 98 ∨ x = 66 then strRadix 2 r2
      else strSignedDec false (48 :: x :: r2)
  | r => strSignedDec false r

/-- ToNumber on a string value. -/
def strToNumber (s : List Nat) : JsNum := strNumOfTrimmed (jsTrim s)

/-- 2-adic valuation with fuel. -/
def twoAdic : Nat → Nat → Nat
  | 0, _ => 0
  | f + 1, n => if n % 2 = 0 ∧ n ≠ 0 then twoAdic f (n / 2) + 1 else 0

/-- 5-adic valuation with fuel. -/
def fiveAdic : Nat → Nat → Nat
  | 0, _ => 0
  | f + 1, n => if n % 5 = 0 ∧ n ≠ 0 then fiveAdic f (n / 5) + 1 else 0

/-- Strip trailing zero digits and a trailing decimal point. -/
def stripZeros (l : List Nat) : List Nat :=
  match l.reverse.dropWhile (fun c => c = 48) with
  | 46 :: r => r.reverse
  | r => r.reverse

/-- Exact decimal rendering of a nonnegative rational with a 10-smooth
denominator, the shape of every JSON-parsed number. -/
def qToStringNN (q : ℚ) : List Nat :=
  match max (twoAdic q.den q.den) (fiveAdic q.den q.den) with
  | 0 => natCodes (q.num.natAbs / q.den)
  | k =>
      match natCodes (q.num.natAbs * 10 ^ k / q.den) with
      | ds =>
          if k < ds.length then
            stripZeros (ds.take (ds.length - k) ++ 46 :: ds.drop (ds.length - k))
          else stripZeros (48 :: 46 :: (List.replicate (k - ds.length) 48 ++ ds))

def qToString (q : ℚ) : List Nat :=
  if q < 0 then 45 :: qToStringNN (-q) else qToStringNN q

mutual

/-- ToString of a parsed JSON value as the array join sees it: null
joins as empty, arrays join their elements with commas, plain objects
render as [object Object]. -/
def jsToStrVal : JsonValue → List Nat
  | JsonValue.null => []
  | JsonValue.bool b => if b then jstr "true" else jstr "false"
  | JsonValue.num q => qToString q
  | JsonValue.str s => s
  | JsonValue.arr l => jsToStrList l
  | JsonValue.obj _ => jstr "[object Object]"

/-- Comma join of the rendered elements. -/
def jsToStrList : List JsonValue → List Nat
  | [] => []
  | [x] => jsToStrVal x
  | x :: y :: xs => jsToStrVal x ++ 44 :: jsToStrList (y :: xs)

end

def jsToString (v : JsonValue) : List Nat := jsToStrVal v

/-- ToNumber of a parsed JSON value (ToPrimitive with number hint, then
ToNumber): arrays and plain objects convert through their string
rendering. -/
def jsToNumberVal : JsonValue → JsNum
  | JsonValue.null => JsNum.val 0
  | JsonValue.bool b => JsNum.val (if b then 1 else 0)
  | JsonValue.num q => JsNum.val q
  | JsonValue.str s => strToNumber s
  | JsonValue.arr l => strToNumber (jsToString (JsonValue.arr l))
  | JsonValue.obj f => strToNumber (jsToString (JsonValue.obj f))

/-- ToNumber of a property read result (none is undefined, giving NaN). -/
def jsToNumber : Option JsonValue → JsNum
  | none => JsNum.nan
  | some v => jsToNumberVal v

/-- JS property access on a non-null parsed value: the last binding of
the key in an object literal, undefined elsewhere. -/
def jsGetField (v : JsonValue) (k : List Nat) : Option JsonValue :=
  match v with
  | JsonValue.obj fields => (fields.reverse.find? (fun f => f.1 == k)).map Prod.snd
  | _ => none

/-- The comparison x < n for a JS number x and an integer n. -/
def jsLtInt (x : JsNum) (n : Int) : Bool :=
  match x with
  | JsNum.nan => false
  | JsNum.inf neg => neg
  | JsNum.val q => decide (q < (n : ℚ))

/-- Strict equality n === x for an integer-valued number n and a
property read result x: only a number of the same value compares
equal. -/
def jsStrictEqNum (n : Int) (x : Option JsonValue) : Bool :=
  match x with
  | some (JsonValue.num q) => decide (((n : Int) : ℚ) = q)
  | _ => false

/-- The null test: property access on null throws a TypeError. -/
def jsIsNull : JsonValue → Bool
  | JsonValue.null => true
  | _ => false

/-- Whether a code unit above 255 survives well-formed stringify
escaping: a non-surrogate unit above 255, or an adjacent surrogate pair
(which passes through raw). -/
def rawWide : List Nat → Bool
  | [] => false
  | [c] => !(isHiSur c || isLoSur c) && decide (256 ≤ c)
  | c :: d :: cs =>
      if isHiSur c then isLoSur d || rawWide (d :: cs)
      else (!(isLoSur c) && decide (256 ≤ c)) || rawWide (d :: cs)

/-! ## The JSON text grammar

The spec-side notion of a well-formed JSON text, written from the
ECMA-404 productions (json, element, value, object, members, member,
array, elements, string, characters, number, integer, fraction,
exponent, ws), to be compared with the JSON.parse model. -/

/-- Grammar ws production characters. -/
def gWsChar (c : Nat) : Bool := c = 32 || c = 10 || c = 13 || c = 9

def gWs : List Nat → List Nat
  | c :: cs => if gWsChar c then gWs cs else c :: cs
  | [] => []

/-- Grammar escape production, the single-character escapes. -/
def gEscChar (e : Nat) : Bool :=
  e = 34 || e = 92 || e = 47 || e = 98 || e = 102 || e = 110 || e = 114 || e = 116

/-- Grammar hex production. -/
def gHex (c : Nat) : Bool :=
  (48 ≤ c && c ≤ 57) || (97 ≤ c && c ≤ 102) || (65 ≤ c && c ≤ 70)

/-- Grammar characters production: the body of a string up to and
including the closing quote. -/
def gChars : List Nat → Option (List Nat)
  | [] => none
  | c :: cs =>
      if c = 34 then some cs
      else if c = 92 then
        match cs with
        | [] => none
        | e :: cs2 =>
            if e = 117 then
              match cs2 with
              | h1 :: h2 :: h3 :: h4 :: cs3 =>
                  if gHex h1 && gHex h2 && gHex h3 && gHex h4 then gChars cs3 else none
              | _ => none
            else if gEscChar e then gChars cs2 else none
      else if 32 ≤ c then gChars cs
      else none

/-- Grammar digits production: one or more digits, maximal. -/
def gDigitsMore : List Nat → List Nat
  | c :: cs => if isDigitCode c then gDigitsMore cs else c :: cs
  | [] => []

def gDigits : List Nat → Option (List Nat)
  | c :: cs => if isDigitCode c then some (gDigitsMore cs) else none
  | [] => none

/-- Grammar integer production body: a zero or a nonzero-led digit
run. -/
def gIntegerBody : List Nat → Option (List Nat)
  | c :: cs =>
      if c = 48 then some cs
      else if isDigitCode c then some (gDigitsMore cs)
      else none
  | [] => none

/-- Grammar integer production: an optional minus sign first. -/
def gInteger : List Nat → Option (List Nat)
  | c :: cs => if c = 45 then gIntegerBody cs else gIntegerBody (c :: cs)
  | [] => none

/-- Grammar fraction production (possibly empty). -/
def gFraction (r : List Nat) : Option (List Nat) :=
  match r with
  | c :: cs => if c = 46 then gDigits cs else some (c :: cs)
  | [] => some []

/-- Grammar sign production (possibly empty). -/
def gSign : List Nat → List Nat
  | c :: cs => if c = 43 ∨ c = 45 then cs else c :: cs
  | [] => []

/-- Grammar exponent production (possibly empty). -/
def gExponent (r : List Nat) : Option (List Nat) :=
  match r with
  | c :: cs => if c = 101 || c = 69 then gDigits (gSign cs) else some (c :: cs)
  | [] => some []

/-- Grammar number production. -/
def gNumber (r : List Nat) : Option (List Nat) :=
  (gInteger r).bind fun r1 => (gFraction r1).bind gExponent

/-- Checker mode: an element (ws value ws), the members of an object, or
the elements of an array. -/
inductive GMode where
  | elem
  | mems (first : Bool)
  | elems (first : Bool)

/-- The grammar checker: accepts exactly the texts derivable from the
grammar productions, returning the unconsumed remainder. -/
def gRec : Nat → GMode → List Nat → Option (List Nat)
  | 0, _, _ => none
  | fuel + 1, GMode.elem, r =>
      match gWs r with
      | [] => none
      | c :: cs =>
          if c = 34 then (gChars cs).map gWs
          else if c = 123 then (gRec fuel (GMode.mems true) cs).map gWs
          else if c = 91 then (gRec fuel (GMode.elems true) cs).map gWs
          else if c = 116 then (expectLit (jstr "rue") cs).map gWs
          else if c = 102 then (expectLit (jstr "alse") cs).map gWs
          else if c = 110 then (expectLit (jstr "ull") cs).map gWs
          else (gNumber (c :: cs)).map gWs
  | fuel + 1, GMode.mems first, r =>
      match gWs r with
      | [] => none
      | c :: cs =>
          if c = 125 then (if first then some cs else none)
          else if c = 34 then
            match gChars cs with
            | none => none
            | some r2 =>
                match gWs r2 with
                | [] => none
                | c2 :: cs2 =>
                    if c2 = 58 then
                      match gRec fuel GMode.elem cs2 with
                      | none => none
                      | some r3 =>
                          match r3 with
                          | c3 :: cs3 =>
                              if c3 = 44 then gRec fuel (GMode.mems false) cs3
                              else if c3 = 125 then some cs3
                              else none
                          | [] => none
                    else none
          else none
  | fuel + 1, GMode.elems first, r =>
      match gWs r with
      | [] => none
      | c :: cs =>
          if c = 93 then (if first then some cs else none)
          else
            match gRec fuel GMode.elem (c :: cs) with
            | none => none
            | some r2 =>
                match r2 with
                | c2 :: cs2 =>
                    if c2 = 44 then gRec fuel (GMode.elems false) cs2
                    else if c2 = 93 then some cs2
                    else none
                | [] => none

/-- Well-formed JSON text: the whole input derives from the json
production (one element). -/
def jsonTextOk (j : List Nat) : Bool :=
  match gRec (2 * j.length + 2) GMode.elem j with
  | some [] => true
  | _ => false

/-! ## The mock user store and the authAPI operations -/

/-- A stored identity.  The seeded demo identity has no createdAt field;
registered identities get one (the code stores an ISO string rendering of
the creation instant, modelled here by the instant itself). -/
structure StoredUser where
  id : Int
  username : List Nat
  email : List Nat
  password : List Nat
  createdAt : Option Int
deriving DecidableEq, Repr

/-- An identity with the password field removed. -/
structure PublicUser where
  id : Int
  username : List Nat
  email : List Nat
  createdAt : Option Int
deriving DecidableEq, Repr

/-- Destructuring off the password field. -/
def withoutPassword (u : StoredUser) : PublicUser :=
  ⟨u.id, u.username, u.email, u.createdAt⟩

/-- The seeded mock user store of authAPI. -/
def mockUsers : List StoredUser :=
  [⟨1, jstr "demo", jstr "demo@example.com", jstr "demo123", none⟩]

/-- The credentials record passed to authAPI.login. -/
structure Credentials where
  email : List Nat
  password : List Nat

/-- The registration record passed to authAPI.register. -/
structure RegisterData where
  username : List Nat
  email : List Nat
  password : List Nat

/-- Result record of authAPI.register. -/
inductive RegisterOutcome
  | failure (message : List Nat)
  | success (message : List Nat) (user : PublicUser)
deriving DecidableEq, Repr

/-- The identity authAPI.register constructs: id is Date.now() and
createdAt the creation instant. -/
def registerNewUser (d : RegisterData) (now : Int) : StoredUser :=
  ⟨now, d.username, d.email, d.password, some now⟩

/-- authAPI.register: duplicate-email check, then append the new identity
and return it without the password.  Returns the result and the updated
store. -/
def registerAPI (d : RegisterData) (store : List StoredUser) (now : Int) :
    RegisterOutcome × List StoredUser :=
  match store.find? (fun u => u.email == d.email) with
  | some _ => (.failure (jstr "Email already registered"), store)
  | none =>
      let nu := registerNewUser d now
      (.success (jstr "Registration successful") (withoutPassword nu), store ++ [nu])

/-- Result record of authAPI.login. -/
inductive LoginOutcome
  | failure (message : List Nat)
  | success (message : List Nat) (token : List Nat) (user : PublicUser)
deriving DecidableEq, Repr

/-- authAPI.login: exact email and password match, then a token with a
24 hour expiry.  The outer none models the btoa InvalidCharacterError
escaping the call when the matched email has a unit above 255. -/
def loginAPI (c : Credentials) (store : List StoredUser) (now : Int) :
    Option LoginOutcome :=
  match store.find? (fun u => u.email == c.email && u.password == c.password) with
  | none => some (.failure (jstr "Invalid email or password"))
  | some u =>
      match encodeToken ⟨u.id, u.email, now + 86400000⟩ with
      | none => none
      | some t => some (.success (jstr "Login successful") t (withoutPassword u))

/-- Result record of authAPI.verifyToken. -/
inductive VerifyOutcome
  | failure (message : List Nat)
  | success (user : PublicUser)
deriving DecidableEq, Repr

/-- authAPI.verifyToken: JSON.parse(atob(token)), then the expiry test
decoded.exp < Date.now(), then the user lookup by strict id equality.
A decode throw and the property-read TypeError on a null value are both
caught by the surrounding try and yield the token-invalid failure. -/
def verifyTokenAPI (token : List Nat) (store : List StoredUser) (now : Int) :
    VerifyOutcome :=
  match jsonDecode token with
  | none => .failure (jstr "Token verification failed")
  | some v =>
      if jsIsNull v then .failure (jstr "Token verification failed")
      else if jsLtInt (jsToNumber (jsGetField v (jstr "exp"))) now then
        .failure (jstr "Token expired")
      else
        match store.find? (fun u => jsStrictEqNum u.id (jsGetField v (jstr "userId"))) with
        | none => .failure (jstr "User not found")
        | some u => .success (withoutPassword u)

/-! ## The session state holder of src/src/main.js -/

/-- The process-wide mutable session record. -/
structure SessionState where
  user : Option PublicUser
  token : Option (List Nat)
  isAuthenticated : Bool
deriving DecidableEq, Repr

/-- The session at process start. -/
def initialSession : SessionState := ⟨none, none, false⟩

/-- A partial user update, one optional field per user field, modelling
the object spread in updateUser. -/
structure UserUpdates where
  newId : Option Int
  newUsername : Option (List Nat)
  newEmail : Option (List Nat)
  newCreatedAt : Option (Option Int)

/-- The object spread: fields present in the update win. -/
def applyUpdates (u : PublicUser) (upd : UserUpdates) : PublicUser :=
  ⟨upd.newId.getD u.id, upd.newUsername.getD u.username,
   upd.newEmail.getD u.email, upd.newCreatedAt.getD u.createdAt⟩

/-- sessionManager.login.  The state is assigned first; the log line then
reads userData.username, which raises a TypeError when userData is null,
so the boolean result is none in that case and some true otherwise.  The
rememberMe argument is only mentioned in comments of the source. -/
def sessionLogin (userData : Option PublicUser) (authToken : Option (List Nat))
    (rememberMe : Bool) (s : SessionState) : SessionState × Option Bool :=
  let s2 : SessionState := ⟨userData, authToken, true⟩
  match userData with
  | some _ => (s2, some true)
  | none => (s2, none)

/-- sessionManager.logout: clear all three fields, return true. -/
def sessionLogout (s : SessionState) : SessionState × Bool :=
  (⟨none, none, false⟩, true)

/-- sessionManager.updateUser: no-op returning false without a user,
otherwise merge the updates into the user. -/
def sessionUpdateUser (upd : UserUpdates) (s : SessionState) : SessionState × Bool :=
  match s.user with
  | none => (s, false)
  | some u => (⟨some (applyUpdates u upd), s.token, s.isAuthenticated⟩, true)

/-- The JS falsy test !token: null or the empty string. -/
def jsTokenAbsent : Option (List Nat) → Bool
  | none => true
  | some l => l.isEmpty

/-- sessionManager.verifyToken: false on an absent token; on a decode
failure the error is caught and false returned with the state untouched;
on decoded.exp < now it calls logout and returns false; otherwise true. -/
def sessionVerifyToken (now : Int) (s : SessionState) : SessionState × Bool :=
  if jsTokenAbsent s.token then (s, false)
  else
    match s.token with
    | none => (s, false)
    | some t =>
        match decodeToken t with
        | none => (s, false)
        | some p =>
            if p.exp < now then ((sessionLogout s).1, false)
            else (s, true)

/-- sessionManager.getSessionDuration: 0 on an absent token or a decode
failure, otherwise Math.floor of the remaining milliseconds over 60000. -/
def sessionGetSessionDuration (now : Int) (s : SessionState) : Int :=
  if jsTokenAbsent s.token then 0
  else
    match s.token with
    | none => 0
    | some t =>
        match decodeToken t with
        | none => 0
        | some p => Int.fdiv (p.exp - now) 60000

/-- sessionManager.restoreSession: the body is commented out and it
always returns false without touching the state. -/
def sessionRestoreSession (s : SessionState) : SessionState × Bool := (s, false)

/-- States reachable from the initial session by any sequence of
sessionManager calls with arbitrary arguments. -/
inductive ReachableSession : SessionState → Prop
  | init : ReachableSession initialSession
  | login (ud : Option PublicUser) (tok : Option (List Nat)) (r : Bool) (s : SessionState) :
      ReachableSession s → ReachableSession (sessionLogin ud tok r s).1
  | logout (s : SessionState) :
      ReachableSession s → ReachableSession (sessionLogout s).1
  | update (upd : UserUpdates) (s : SessionState) :
      ReachableSession s → ReachableSession (sessionUpdateUser upd s).1
  | verify (now : Int) (s : SessionState) :
      ReachableSession s → ReachableSession (sessionVerifyToken now s).1
  | restore (s : SessionState) :
      ReachableSession s → ReachableSession (sessionRestoreSession s).1

/-- States reachable when every login call passes a present user and a
present token, the discipline the rest of the application follows. -/
inductive GuardedReachable : SessionState → Prop
  | init : GuardedReachable initialSession
  | login (u : PublicUser) (t : List Nat) (r : Bool) (s : SessionState) :
      GuardedReachable s → GuardedReachable (sessionLogin (some u) (some t) r s).1
  | logout (s : SessionState) :
      GuardedReachable s → GuardedReachable (sessionLogout s).1
  | update (upd : UserUpdates) (s : SessionState) :
      GuardedReachable s → GuardedReachable (sessionUpdateUser upd s).1
  | verify (now : Int) (s : SessionState) :
      GuardedReachable s → GuardedReachable (sessionVerifyToken now s).1
  | restore (s : SessionState) :
      GuardedReachable s → GuardedReachable (sessionRestoreSession s).1

/-- Sextet stream of a byte list, the specification mirror of the
encoder without its alphabet mapping. -/
def sextetsOf : List Nat → List Nat
  | a :: b :: c :: rest =>
      (a / 4) :: (a % 4 * 16 + b / 16) :: (b % 16 * 4 + c / 64) :: (c % 64) :: sextetsOf rest
  | [a] => [a / 4, a % 4 * 16]
  | [a, b] => [a / 4, a % 4 * 16 + b / 16, b % 16 * 4]
  | [] => []

/-- The seeded demo identity with the password removed. -/
def demoPublic : PublicUser := ⟨1, jstr "demo", jstr "demo@example.com", none⟩

/-- A token payload for the demo identity with the given expiry. -/
def demoPayload (e : Int) : TokenPayload := ⟨1, jstr "demo@example.com", e⟩

/-- The token the auth API would issue for the demo identity with the
given expiry. -/
def demoToken (e : Int) : List Nat := b64encode (jsonOfPayload (demoPayload e))

/-- A string that is not valid base64 (bang signs are outside the alphabet). -/
def badToken : List Nat := jstr "!!!"

/-! ## Helper lemmas: base64 round trip -/

theorem b64index_b64char : ∀ n < 64, b64index (b64char n) = some n := by decide

theorem b64char_bounds (n : Nat) : 43 ≤ b64char n ∧ b64char n ≤ 122 ∧ b64char n ≠ 61 := by
  unfold b64char
  split
  · omega
  · split
    · omega
    · split
      · omega
      · split <;> omega

theorem isB64Space_b64char (n : Nat) : isB64Space (b64char n) = false := by
  have h := b64char_bounds n
  simp only [isB64Space, Bool.or_eq_false_iff, decide_eq_false_iff_not]
  omega

theorem b64encode_no_space : ∀ l : List Nat, ∀ c ∈ b64encode l, (!isB64Space c) = true
  | [] => by simp [b64encode]
  | [a] => by
      intro c hc
      simp only [b64encode, List.mem_cons, List.not_mem_nil, or_false] at hc
      rcases hc with rfl | rfl | rfl | rfl
      · simp [isB64Space_b64char]
      · simp [isB64Space_b64char]
      · rfl
      · rfl
  | [a, b] => by
      intro c hc
      simp only [b64encode, List.mem_cons, List.not_mem_nil, or_false] at hc
      rcases hc with rfl | rfl | rfl | rfl
      · simp [isB64Space_b64char]
      · simp [isB64Space_b64char]
      · simp [isB64Space_b64char]
      · rfl
  | a :: b :: c :: rest => by
      intro x hx
      simp only [b64encode, List.mem_cons] at hx
      rcases hx with rfl | rfl | rfl | rfl | hx
      · simp [isB64Space_b64char]
      · simp [isB64Space_b64char]
      · simp [isB64Space_b64char]
      · simp [isB64Space_b64char]
      · exact b64encode_no_space rest x hx

theorem b64encode_length : ∀ l : List Nat, (b64encode l).length % 4 = 0
  | [] => by simp [b64encode]
  | [a] => by simp [b64encode]
  | [a, b] => by simp [b64encode]
  | a :: b :: c :: rest => by
      have ih := b64encode_length rest
      simp only [b64encode, List.length_cons]
      omega

theorem b64encode_ne_nil : ∀ l : List Nat, l ≠ [] → b64encode l ≠ []
  | [], h => absurd rfl h
  | [a], _ => by simp [b64encode]
  | [a, b], _ => by simp [b64encode]
  | a :: b :: c :: rest, _ => by simp [b64encode]

theorem dropIfPad_concat61 (xs : List Nat) : dropIfPad (xs ++ [61]) = xs := by
  unfold dropIfPad
  rw [List.getLast?_concat, if_pos rfl, List.dropLast_concat]

theorem dropIfPad_concat_b64char (xs : List Nat) (n : Nat) :
    dropIfPad (xs ++ [b64char n]) = xs ++ [b64char n] := by
  unfold dropIfPad
  rw [List.getLast?_concat, if_neg]
  intro hc
  exact (b64char_bounds n).2.2 (Option.some.inj hc)

theorem dropIfPad_append (xs ys : List Nat) (h : ys ≠ []) :
    dropIfPad (xs ++ ys) = xs ++ dropIfPad ys := by
  rcases List.eq_nil_or_concat ys with rfl | ⟨ws, w, rfl⟩
  · exact absurd rfl h
  · unfold dropIfPad
    simp only [List.concat_eq_append]
    rw [← List.append_assoc, List.getLast?_concat, List.getLast?_concat]
    by_cases hw : w = 61
    · subst hw
      rw [if_pos rfl, if_pos rfl, List.dropLast_concat, List.dropLast_concat]
    · rw [if_neg (by simpa using hw), if_neg (by simpa using hw), List.append_assoc]

theorem dropIfPad_length (l : List Nat) : l.length - 1 ≤ (dropIfPad l).length := by
  unfold dropIfPad
  split <;> simp

theorem stripPad_append (xs ys : List Nat) (h : ys ≠ []) (h2 : dropIfPad ys ≠ []) :
    stripPad (xs ++ ys) = xs ++ stripPad ys := by
  unfold stripPad
  rw [dropIfPad_append _ _ h, dropIfPad_append _ _ h2]

theorem stripPad_b64encode : ∀ l : List Nat, stripPad (b64encode l) = b64encodeNoPad l
  | [] => rfl
  | [a] => by
      show stripPad (([b64char (a / 4), b64char (a % 4 * 16), 61] ++ [61])) = _
      unfold stripPad
      rw [dropIfPad_concat61]
      show dropIfPad ([b64char (a / 4), b64char (a % 4 * 16)] ++ [61]) = _
      rw [dropIfPad_concat61]
      rfl
  | [a, b] => by
      show stripPad (([b64char (a / 4), b64char (a % 4 * 16 + b / 16),
        b64char (b % 16 * 4)] ++ [61])) = _
      unfold stripPad
      rw [dropIfPad_concat61]
      show dropIfPad ([b64char (a / 4), b64char (a % 4 * 16 + b / 16)] ++
        [b64char (b % 16 * 4)]) = _
      rw [dropIfPad_concat_b64char]
      rfl
  | a :: b :: c :: rest => by
      by_cases hr : rest = []
      · subst hr
        show stripPad ([b64char (a / 4), b64char (a % 4 * 16 + b / 16),
          b64char (b % 16 * 4 + c / 64)] ++ [b64char (c % 64)]) = _
        unfold stripPad
        rw [dropIfPad_concat_b64char, dropIfPad_concat_b64char]
        rfl
      · have hne := b64encode_ne_nil rest hr
        have hlen := b64encode_length rest
        have ih := stripPad_b64encode rest
        have hne2 : dropIfPad (b64encode rest) ≠ [] := by
          intro hz
          have hlz := congrArg List.length hz
          simp only [List.length_nil] at hlz
          have h1 := dropIfPad_length (b64encode rest)
          have h0 : (b64encode rest).length ≠ 0 :=
            fun h00 => hne (List.length_eq_zero.mp h00)
          omega
        show stripPad ([b64char (a / 4), b64char (a % 4 * 16 + b / 16),
          b64char (b % 16 * 4 + c / 64), b64char (c % 64)] ++ b64encode rest) = _
        rw [stripPad_append _ _ hne hne2, ih]
        rfl

theorem b64encodeNoPad_length_mod : ∀ l : List Nat, (b64encodeNoPad l).length % 4 ≠ 1
  | [] => by simp [b64encodeNoPad]
  | [a] => by simp [b64encodeNoPad]
  | [a, b] => by simp [b64encodeNoPad]
  | a :: b :: c :: rest => by
      have ih := b64encodeNoPad_length_mod rest
      simp only [b64encodeNoPad, List.length_cons]
      omega

theorem mapB64Index_noPad : ∀ l : List Nat, (∀ x ∈ l, x < 256) →
    mapB64Index (b64encodeNoPad l) = some (sextetsOf l)
  | [], _ => rfl
  | [a], h => by
      have ha : a < 256 := h a (by simp)
      have h1 := b64index_b64char (a / 4) (by omega)
      have h2 := b64index_b64char (a % 4 * 16) (by omega)
      simp [b64encodeNoPad, sextetsOf, mapB64Index, h1, h2]
  | [a, b], h => by
      have ha : a < 256 := h a (by simp)
      have hb : b < 256 := h b (by simp)
      have h1 := b64index_b64char (a / 4) (by omega)
      have h2 := b64index_b64char (a % 4 * 16 + b / 16) (by omega)
      have h3 := b64index_b64char (b % 16 * 4) (by omega)
      simp [b64encodeNoPad, sextetsOf, mapB64Index, h1, h2, h3]
  | a :: b :: c :: rest, h => by
      have ha : a < 256 := h a (by simp)
      have hb : b < 256 := h b (by simp)
      have hc : c < 256 := h c (by simp)
      have h1 := b64index_b64char (a / 4) (by omega)
      have h2 := b64index_b64char (a % 4 * 16 + b / 16) (by omega)
      have h3 := b64index_b64char (b % 16 * 4 + c / 64) (by omega)
      have h4 := b64index_b64char (c % 64) (by omega)
      have ih := mapB64Index_noPad rest (fun x hx => h x (by simp [hx]))
      simp [b64encodeNoPad, sextetsOf, mapB64Index, h1, h2, h3, h4, ih]

theorem sextetsToBytes_sextetsOf : ∀ l : List Nat, (∀ x ∈ l, x < 256) →
    sextetsToBytes (sextetsOf l) = some l
  | [], _ => rfl
  | [a], h => by
      have ha : a < 256 := h a (by simp)
      simp only [sextetsOf, sextetsToBytes, Option.some.injEq]
      congr 1
      omega
  | [a, b], h => by
      have ha : a < 256 := h a (by simp)
      have hb : b < 256 := h b (by simp)
      simp only [sextetsOf, sextetsToBytes, Option.some.injEq]
      have e1 : a / 4 * 4 + (a % 4 * 16 + b / 16) / 16 = a := by omega
      have e2 : (a % 4 * 16 + b / 16) % 16 * 16 + b % 16 * 4 / 4 = b := by omega
      rw [e1, e2]
  | a :: b :: c :: rest, h => by
      have ha : a < 256 := h a (by simp)
      have hb : b < 256 := h b (by simp)
      have hc : c < 256 := h c (by simp)
      have ih := sextetsToBytes_sextetsOf rest (fun x hx => h x (by simp [hx]))
      have e1 : a / 4 * 4 + (a % 4 * 16 + b / 16) / 16 = a := by omega
      have e2 : (a % 4 * 16 + b / 16) % 16 * 16 + (b % 16 * 4 + c / 64) / 4 = b := by omega
      have e3 : (b % 16 * 4 + c / 64) % 4 * 64 + c % 64 = c := by omega
      simp only [sextetsOf, sextetsToBytes, ih, e1, e2, e3, Option.map]

theorem atobJS_b64encode (l : List Nat) (h : ∀ x ∈ l, x < 256) :
    atobJS (b64encode l) = some l := by
  unfold atobJS
  have hws : atobWS (b64encode l) = b64encode l :=
    List.filter_eq_self.mpr (b64encode_no_space l)
  have hstrip : atobStrip (b64encode l) = b64encodeNoPad l := by
    unfold atobStrip
    rw [if_pos (b64encode_length l), stripPad_b64encode l]
  rw [hws, hstrip]
  rw [if_neg (b64encodeNoPad_length_mod l)]
  rw [mapB64Index_noPad l h]
  exact sextetsToBytes_sextetsOf l h

/-! ## Helper lemmas: decimal serialization round trip -/

theorem natCodesAux_congr : ∀ (f1 f2 n : Nat), n < f1 → n < f2 →
    natCodesAux f1 n = natCodesAux f2 n
  | f1 + 1, f2 + 1, n, h1, h2 => by
      simp only [natCodesAux]
      by_cases h10 : n < 10
      · rw [if_pos h10, if_pos h10]
      · rw [if_neg h10, if_neg h10,
          natCodesAux_congr f1 f2 (n / 10) (by omega) (by omega)]

/-- The unfolding equation of the decimal printer, fuel eliminated. -/
theorem natCodes_eq (n : Nat) : natCodes n =
    if n < 10 then [48 + n] else natCodes (n / 10) ++ [48 + n % 10] := by
  show natCodesAux (n + 1) n = _
  by_cases h10 : n < 10
  · simp only [natCodesAux, if_pos h10]
  · simp only [natCodesAux, if_neg h10]
    rw [natCodesAux_congr n (n / 10 + 1) (n / 10) (by omega) (by omega)]
    rfl

theorem digitsVal_append (a : Nat) (xs : List Nat) (d : Nat) :
    digitsVal a (xs ++ [d]) = digitsVal a xs * 10 + (d - 48) := by
  simp [digitsVal, List.foldl_append]

theorem digitsVal_ge : ∀ (ds : List Nat) (a : Nat), a ≤ digitsVal a ds
  | [], a => le_refl a
  | c :: cs, a => by
      have h := digitsVal_ge cs (a * 10 + (c - 48))
      simp only [digitsVal, List.foldl_cons] at *
      omega

theorem natCodes_zero : natCodes 0 = [48] := rfl

theorem natCodes_spec : ∀ n : Nat, 1 ≤ n → ∃ c cs, natCodes n = c :: cs ∧
    49 ≤ c ∧ c ≤ 57 ∧ (∀ d ∈ cs, isDigitCode d = true) ∧ digitsVal (c - 48) cs = n := by
  intro n
  induction n using Nat.strong_induction_on with
  | _ n ih =>
    intro hn
    by_cases h10 : n < 10
    · refine ⟨48 + n, [], ?_, by omega, by omega, by simp, ?_⟩
      · rw [natCodes_eq, if_pos h10]
      · show 48 + n - 48 = n
        omega
    · have h1 : 1 ≤ n / 10 := by omega
      obtain ⟨c, cs, hnc, hc1, hc2, hds, hval⟩ := ih (n / 10) (by omega) h1
      refine ⟨c, cs ++ [48 + n % 10], ?_, hc1, hc2, ?_, ?_⟩
      · rw [natCodes_eq, if_neg h10, hnc]
        simp
      · intro d hd
        rcases List.mem_append.mp hd with hd1 | hd2
        · exact hds d hd1
        · have : d = 48 + n % 10 := by simpa using hd2
          subst this
          simp only [isDigitCode, Bool.and_eq_true, decide_eq_true_eq]
          omega
      · rw [digitsVal_append, hval]
        omega

theorem natCodes_unique : ∀ (ds : List Nat) (c : Nat), 49 ≤ c → c ≤ 57 →
    (∀ d ∈ ds, isDigitCode d = true) → natCodes (digitsVal (c - 48) ds) = c :: ds := by
  intro ds
  induction ds using List.reverseRecOn with
  | nil =>
      intro c h1 h2 _
      show natCodes (c - 48) = [c]
      rw [natCodes_eq, if_pos (by omega : c - 48 < 10)]
      have : 48 + (c - 48) = c := by omega
      rw [this]
  | append_singleton xs d ihx =>
      intro c h1 h2 hds
      have hxs : ∀ x ∈ xs, isDigitCode x = true :=
        fun x hx => hds x (List.mem_append.mpr (Or.inl hx))
      have hd : isDigitCode d = true := hds d (by simp)
      have hd48 : 48 ≤ d ∧ d ≤ 57 := by
        simp only [isDigitCode, Bool.and_eq_true, decide_eq_true_eq] at hd
        omega
      have hih := ihx c h1 h2 hxs
      rw [digitsVal_append]
      have hm : 1 ≤ digitsVal (c - 48) xs :=
        le_trans (by omega) (digitsVal_ge xs (c - 48))
      rw [natCodes_eq, if_neg (by omega : ¬(digitsVal (c - 48) xs * 10 + (d - 48) < 10))]
      have hdiv : (digitsVal (c - 48) xs * 10 + (d - 48)) / 10 = digitsVal (c - 48) xs := by
        omega
      have hmod : (digitsVal (c - 48) xs * 10 + (d - 48)) % 10 = d - 48 := by omega
      rw [hdiv, hmod, hih]
      have : 48 + (d - 48) = d := by omega
      rw [this]
      simp

theorem grabDigits_complete : ∀ (ds : List Nat) (a : Nat) (rest : List Nat),
    (∀ d ∈ ds, isDigitCode d = true) → headDigit rest = false →
    grabDigits a (ds ++ rest) = (digitsVal a ds, rest)
  | [], a, rest, _, hrest => by
      cases rest with
      | nil => rfl
      | cons r rs =>
          have hr : isDigitCode r = false := by simpa [headDigit] using hrest
          simp [grabDigits, hr, digitsVal]
  | d :: ds, a, rest, hds, hrest => by
      have hd : isDigitCode d = true := hds d (by simp)
      have ih := grabDigits_complete ds (a * 10 + (d - 48)) rest
        (fun x hx => hds x (by simp [hx])) hrest
      simp only [List.cons_append, grabDigits, hd, if_pos]
      simpa [digitsVal] using ih

theorem grabDigits_sound : ∀ (s : List Nat) (a n : Nat) (rest : List Nat),
    grabDigits a s = (n, rest) → ∃ ds, s = ds ++ rest ∧
      (∀ d ∈ ds, isDigitCode d = true) ∧ digitsVal a ds = n ∧ headDigit rest = false
  | [], a, n, rest, h => by
      simp only [grabDigits, Prod.mk.injEq] at h
      obtain ⟨rfl, rfl⟩ := h
      exact ⟨[], rfl, by simp, rfl, rfl⟩
  | c :: cs, a, n, rest, h => by
      by_cases hc : isDigitCode c = true
      · rw [show grabDigits a (c :: cs) = grabDigits (a * 10 + (c - 48)) cs by
          simp [grabDigits, hc]] at h
        obtain ⟨ds, hs, hds, hval, hrest⟩ := grabDigits_sound cs _ n rest h
        refine ⟨c :: ds, by simp [hs], ?_, by simpa [digitsVal] using hval, hrest⟩
        intro d hd
        rcases List.mem_cons.mp hd with rfl | hd2
        · exact hc
        · exact hds d hd2
      · rw [show grabDigits a (c :: cs) = (a, c :: cs) by
          simp [grabDigits, hc]] at h
        simp only [Prod.mk.injEq] at h
        obtain ⟨rfl, rfl⟩ := h
        refine ⟨[], rfl, by simp, rfl, ?_⟩
        simp only [headDigit]
        simpa using hc

theorem parseNatCanon_complete (n : Nat) (rest : List Nat) (hrest : headDigit rest = false) :
    parseNatCanon (natCodes n ++ rest) = some (n, rest) := by
  by_cases h0 : n = 0
  · subst h0
    rw [natCodes_zero]
    simp [parseNatCanon]
  · obtain ⟨c, cs, hnc, hc1, hc2, hds, hval⟩ := natCodes_spec n (by omega)
    rw [hnc]
    show parseNatCanon (c :: (cs ++ rest)) = _
    have hc48 : ¬(c = 48) := by omega
    have hcd : isDigitCode c = true := by
      simp only [isDigitCode, Bool.and_eq_true, decide_eq_true_eq]
      omega
    have hstep : parseNatCanon (c :: (cs ++ rest)) = some (grabDigits (c - 48) (cs ++ rest)) := by
      simp [parseNatCanon, hc48, hcd]
    rw [hstep, grabDigits_complete cs (c - 48) rest hds hrest, hval]

theorem parseNatCanon_sound (s : List Nat) (n : Nat) (rest : List Nat)
    (h : parseNatCanon s = some (n, rest)) : s = natCodes n ++ rest := by
  cases s with
  | nil => simp [parseNatCanon] at h
  | cons c cs =>
      by_cases hc48 : c = 48
      · subst hc48
        have h2 : (0, cs) = (n, rest) := by simpa [parseNatCanon] using h
        simp only [Prod.mk.injEq] at h2
        obtain ⟨rfl, rfl⟩ := h2
        rw [natCodes_zero]
        rfl
      · by_cases hcd : isDigitCode c = true
        · have hg : grabDigits (c - 48) cs = (n, rest) := by
            simpa [parseNatCanon, hc48, hcd] using h
          obtain ⟨ds, hs, hds, hval, _⟩ := grabDigits_sound cs (c - 48) n rest hg
          have hc4857 : 48 ≤ c ∧ c ≤ 57 := by
            simp only [isDigitCode, Bool.and_eq_true, decide_eq_true_eq] at hcd
            omega
          have hu := natCodes_unique ds c (by omega) (by omega) hds
          rw [hval] at hu
          rw [hu, hs]
          rfl
        · simp [parseNatCanon, hc48, hcd] at h

theorem parseIntCanon_complete (z : Int) (rest : List Nat) (hrest : headDigit rest = false) :
    parseIntCanon (intCodes z ++ rest) = some (z, rest) := by
  by_cases hz : z < 0
  · unfold intCodes
    rw [if_pos hz]
    show parseIntCanon (45 :: (natCodes z.natAbs ++ rest)) = _
    simp only [parseIntCanon, if_pos rfl]
    rw [parseNatCanon_complete z.natAbs rest hrest]
    have hna : ¬(z.natAbs = 0) := by omega
    have hval : -((z.natAbs : Nat) : Int) = z := by omega
    show (if z.natAbs = 0 then none else some (-((z.natAbs : Nat) : Int), rest)) = some (z, rest)
    rw [if_neg hna, hval]
  · unfold intCodes
    rw [if_neg hz]
    have hshape : ∃ c cs, natCodes z.toNat = c :: cs ∧ 48 ≤ c ∧ c ≤ 57 := by
      by_cases h0 : z.toNat = 0
      · rw [h0, natCodes_zero]
        exact ⟨48, [], rfl, le_refl _, by omega⟩
      · obtain ⟨c, cs, hnc, hc1, hc2, _, _⟩ := natCodes_spec z.toNat (by omega)
        exact ⟨c, cs, hnc, by omega, hc2⟩
    obtain ⟨c, cs, hnc, hc1, hc2⟩ := hshape
    rw [hnc]
    show parseIntCanon (c :: (cs ++ rest)) = _
    have hc45 : ¬(c = 45) := by omega
    simp only [parseIntCanon, if_neg hc45]
    have hback : (c :: (cs ++ rest)) = natCodes z.toNat ++ rest := by rw [hnc]; rfl
    rw [hback, parseNatCanon_complete z.toNat rest hrest]
    have hval : ((z.toNat : Nat) : Int) = z := by omega
    simp [hval]

theorem parseIntCanon_sound (s : List Nat) (z : Int) (rest : List Nat)
    (h : parseIntCanon s = some (z, rest)) : s = intCodes z ++ rest := by
  cases s with
  | nil => simp [parseIntCanon] at h
  | cons c cs =>
      by_cases hc45 : c = 45
      · subst hc45
        simp only [parseIntCanon, if_pos rfl] at h
        cases hp : parseNatCanon cs with
        | none => rw [hp] at h; simp at h
        | some pr =>
            obtain ⟨n, r⟩ := pr
            rw [hp] at h
            by_cases hn0 : n = 0
            · subst hn0
              simp at h
            · simp only [if_neg hn0, Option.some.injEq, Prod.mk.injEq] at h
              obtain ⟨rfl, rfl⟩ := h
              have hs := parseNatCanon_sound cs n rest hp
              rw [hs]
              unfold intCodes
              rw [if_pos (show -((n : Nat) : Int) < 0 by omega)]
              have hna : ((-((n : Nat) : Int)).natAbs) = n := by omega
              rw [hna]
              rfl
      · simp only [parseIntCanon, if_neg hc45] at h
        cases hp : parseNatCanon (c :: cs) with
        | none => rw [hp] at h; simp at h
        | some pr =>
            obtain ⟨n, r⟩ := pr
            rw [hp] at h
            simp only [Option.some.injEq, Prod.mk.injEq] at h
            obtain ⟨rfl, rfl⟩ := h
            have hs := parseNatCanon_sound (c :: cs) n r hp
            rw [hs]
            unfold intCodes
            rw [if_neg (show ¬(((n : Nat) : Int) < 0) by omega)]
            have htn : (((n : Nat) : Int)).toNat = n := by omega
            rw [htn]

/-! ## Helper lemmas: string escaping round trip -/

theorem escapeStr_nil : escapeStr [] = [] := rfl

theorem escapeStr_cons_plain (c : Nat) (l : List Nat) (h1 : isHiSur c = false)
    (h2 : isLoSur c = false) : escapeStr (c :: l) = escapeChar c ++ escapeStr l := by
  cases l with
  | nil => simp [escapeStr, h1, h2]
  | cons d l2 => simp [escapeStr, h1, h2]

theorem escapeStr_hi_lo (c d : Nat) (l : List Nat) (hc : isHiSur c = true)
    (hd : isLoSur d = true) : escapeStr (c :: d :: l) = c :: d :: escapeStr l := by
  simp [escapeStr, hc, hd]

theorem escapeStr_hi_notlo (c d : Nat) (l : List Nat) (hc : isHiSur c = true)
    (hd : isLoSur d = false) : escapeStr (c :: d :: l) = surEscape c ++ escapeStr (d :: l) := by
  simp [escapeStr, hc, hd]

theorem escapeStr_hi_nil (c : Nat) (hc : isHiSur c = true) : escapeStr [c] = surEscape c := by
  simp [escapeStr, hc]

theorem escapeStr_lo (c : Nat) (l : List Nat) (hc : isHiSur c = false)
    (hd : isLoSur c = true) : escapeStr (c :: l) = surEscape c ++ escapeStr l := by
  cases l with
  | nil => simp [escapeStr, hc, hd]
  | cons d l2 => simp [escapeStr, hc, hd]

theorem notSur_of_lt256 (c : Nat) (h : c < 256) : isHiSur c = false ∧ isLoSur c = false := by
  simp only [isHiSur, isLoSur, Bool.and_eq_false_iff, decide_eq_false_iff_not]
  omega

theorem parseHexDigit_hexDigitChar : ∀ d < 16, parseHexDigit (hexDigitChar d) = some d := by
  decide

theorem parseHexDigit_sound (h d : Nat) (hp : parseHexDigit h = some d) :
    h = hexDigitChar d ∧ d < 16 := by
  unfold parseHexDigit at hp
  split at hp
  · next hr =>
      simp only [Option.some.injEq] at hp
      subst hp
      refine ⟨?_, by omega⟩
      unfold hexDigitChar
      rw [if_pos (by omega : h - 48 < 10)]
      omega
  · split at hp
    · next hr =>
        simp only [Option.some.injEq] at hp
        subst hp
        refine ⟨?_, by omega⟩
        unfold hexDigitChar
        rw [if_neg (by omega : ¬(h - 87 < 10))]
        omega
    · exact absurd hp (by simp)

theorem escapeChar_control (c : Nat) (h1 : c < 32) (h2 : ¬c = 8) (h3 : ¬c = 9)
    (h4 : ¬c = 10) (h5 : ¬c = 12) (h6 : ¬c = 13) :
    escapeChar c = [92, 117, 48, 48, hexDigitChar (c / 16), hexDigitChar (c % 16)] := by
  unfold escapeChar
  rw [if_neg (by omega : ¬c = 34), if_neg (by omega : ¬c = 92), if_neg h2, if_neg h3,
    if_neg h4, if_neg h5, if_neg h6, if_pos h1]

theorem escapeChar_plain (c : Nat) (h1 : 32 ≤ c) (h2 : ¬c = 34) (h3 : ¬c = 92) :
    escapeChar c = [c] := by
  unfold escapeChar
  rw [if_neg h2, if_neg h3, if_neg (by omega : ¬c = 8), if_neg (by omega : ¬c = 9),
    if_neg (by omega : ¬c = 10), if_neg (by omega : ¬c = 12), if_neg (by omega : ¬c = 13),
    if_neg (by omega : ¬c < 32)]

theorem parseStrChars_quoteStep (cs : List Nat) : parseStrChars (34 :: cs) = some ([], cs) := by
  rw [parseStrChars.eq_def]
  simp

theorem parseStrChars_uStep (h1 h2 h3 h4 d1 d2 d3 d4 : Nat) (cs3 : List Nat)
    (p1 : parseHexDigit h1 = some d1) (p2 : parseHexDigit h2 = some d2)
    (p3 : parseHexDigit h3 = some d3) (p4 : parseHexDigit h4 = some d4)
    (hok : uEscapeOk (((d1 * 16 + d2) * 16 + d3) * 16 + d4) = true) :
    parseStrChars (92 :: 117 :: h1 :: h2 :: h3 :: h4 :: cs3) =
      (parseStrChars cs3).map
        (fun pr => ((((d1 * 16 + d2) * 16 + d3) * 16 + d4) :: pr.1, pr.2)) := by
  rw [parseStrChars.eq_def]
  simp [p1, p2, p3, p4, hok]

theorem parseStrChars_escStep (e r : Nat) (he : ¬e = 117) (hs : simpleUnescape e = some r)
    (cs : List Nat) :
    parseStrChars (92 :: e :: cs) =
      (parseStrChars cs).map (fun pr => (r :: pr.1, pr.2)) := by
  rw [parseStrChars.eq_def]
  simp [he, hs]

theorem parseStrChars_plainStep (c : Nat) (h1 : ¬c = 34) (h2 : ¬c = 92)
    (h3 : 32 ≤ c ∧ c ≠ 8232 ∧ c ≠ 8233) (cs : List Nat) :
    parseStrChars (c :: cs) = (parseStrChars cs).map (fun pr => (c :: pr.1, pr.2)) := by
  rw [parseStrChars.eq_def]
  simp [h1, h2, h3]

theorem simpleUnescape_sound (e r : Nat) (hs : simpleUnescape e = some r) :
    escapeChar r = [92, e] ∧ ¬e = 117 := by
  by_cases h1 : e = 34
  · subst h1
    rw [show simpleUnescape 34 = some 34 from by decide] at hs
    injection hs with hr
    subst hr
    exact ⟨by decide, by decide⟩
  by_cases h2 : e = 92
  · subst h2
    rw [show simpleUnescape 92 = some 92 from by decide] at hs
    injection hs with hr
    subst hr
    exact ⟨by decide, by decide⟩
  by_cases h3 : e = 98
  · subst h3
    rw [show simpleUnescape 98 = some 8 from by decide] at hs
    injection hs with hr
    subst hr
    exact ⟨by decide, by decide⟩
  by_cases h4 : e = 116
  · subst h4
    rw [show simpleUnescape 116 = some 9 from by decide] at hs
    injection hs with hr
    subst hr
    exact ⟨by decide, by decide⟩
  by_cases h5 : e = 110
  · subst h5
    rw [show simpleUnescape 110 = some 10 from by decide] at hs
    injection hs with hr
    subst hr
    exact ⟨by decide, by decide⟩
  by_cases h6 : e = 102
  · subst h6
    rw [show simpleUnescape 102 = some 12 from by decide] at hs
    injection hs with hr
    subst hr
    exact ⟨by decide, by decide⟩
  by_cases h7 : e = 114
  · subst h7
    rw [show simpleUnescape 114 = some 13 from by decide] at hs
    injection hs with hr
    subst hr
    exact ⟨by decide, by decide⟩
  · simp [simpleUnescape, h1, h2, h3, h4, h5, h6, h7] at hs

/-! ## Helper lemmas: full token JSON round trip -/

theorem expectLit_complete : ∀ (l r : List Nat), expectLit l (l ++ r) = some r
  | [], _ => rfl
  | c :: cs, r => by simp [expectLit, expectLit_complete cs r]

theorem expectLit_sound : ∀ (l s r : List Nat), expectLit l s = some r → s = l ++ r
  | [], s, r, h => by
      simp only [expectLit, Option.some.injEq] at h
      rw [h]
      rfl
  | c :: cs, s, r, h => by
      cases s with
      | nil => simp [expectLit] at h
      | cons x xs =>
          by_cases hx : x = c
          · subst hx
            have h2 : expectLit cs xs = some r := by simpa [expectLit] using h
            rw [expectLit_sound cs xs r h2]
            rfl
          · simp [expectLit, hx] at h

theorem jstrQuoteExp : jstr "\",\"exp\":" = 34 :: jstr ",\"exp\":" := by decide

/-! ## Helper lemmas: the token codec as a whole -/

theorem encodeToken_some (p : TokenPayload) (t : List Nat) (h : encodeToken p = some t) :
    t = b64encode (jsonOfPayload p) ∧ ∀ x ∈ jsonOfPayload p, x < 256 := by
  unfold encodeToken btoaJS at h
  split at h
  · next hall =>
      injection h with h
      refine ⟨h.symm, ?_⟩
      simpa [List.all_eq_true] using hall
  · exact absurd h (by simp)

theorem natCodesAux_range : ∀ (fuel n : Nat), ∀ x ∈ natCodesAux fuel n, 48 ≤ x ∧ x ≤ 57
  | 0, _ => by simp [natCodesAux]
  | fuel + 1, n => by
      intro x hx
      simp only [natCodesAux] at hx
      by_cases h10 : n < 10
      · rw [if_pos h10] at hx
        simp at hx
        omega
      · rw [if_neg h10] at hx
        rcases List.mem_append.mp hx with h1 | h2
        · exact natCodesAux_range fuel (n / 10) x h1
        · have : x = 48 + n % 10 := by simpa using h2
          omega

theorem intCodes_lt256 (z : Int) : ∀ x ∈ intCodes z, x < 256 := by
  intro x hx
  unfold intCodes at hx
  split at hx
  · rcases List.mem_cons.mp hx with rfl | h2
    · omega
    · have := natCodesAux_range _ _ x h2
      omega
  · have := natCodesAux_range _ _ x hx
    omega

theorem hexDigitChar_lt256 (n : Nat) (h : n < 16) : hexDigitChar n < 256 := by
  unfold hexDigitChar
  split <;> omega

theorem escapeChar_lt256 (c : Nat) (hc : c < 256) : ∀ x ∈ escapeChar c, x < 256 := by
  intro x hx
  unfold escapeChar at hx
  split at hx
  · simp at hx; omega
  · split at hx
    · simp at hx; omega
    · split at hx
      · simp at hx; omega
      · split at hx
        · simp at hx; omega
        · split at hx
          · simp at hx; omega
          · split at hx
            · simp at hx; omega
            · split at hx
              · simp at hx; omega
              · split at hx
                · next hlt =>
                    simp at hx
                    have q1 := hexDigitChar_lt256 (c / 16) (by omega)
                    have q2 := hexDigitChar_lt256 (c % 16) (by omega)
                    rcases hx with rfl | rfl | rfl | rfl | rfl | rfl <;> omega
                · simp at hx
                  omega

theorem escapeStr_lt256 : ∀ (l : List Nat), (∀ x ∈ l, x < 256) →
    ∀ x ∈ escapeStr l, x < 256
  | [], _ => by simp [escapeStr_nil]
  | c :: cs, h => by
      intro x hx
      obtain ⟨hhi, hlo⟩ := notSur_of_lt256 c (h c (by simp))
      rw [escapeStr_cons_plain c cs hhi hlo] at hx
      rcases List.mem_append.mp hx with h1 | h2
      · exact escapeChar_lt256 c (h c (by simp)) x h1
      · exact escapeStr_lt256 cs (fun y hy => h y (by simp [hy])) x h2

theorem jsonOfPayload_lt256 (p : TokenPayload) (he : ∀ x ∈ p.email, x < 256) :
    ∀ x ∈ jsonOfPayload p, x < 256 := by
  intro x hx
  unfold jsonOfPayload at hx
  simp only [List.append_assoc, List.mem_append] at hx
  rcases hx with h | h | h | h | h | h | h
  · exact (by decide : ∀ y ∈ jstr "\x7b\"userId\":", y < 256) x h
  · exact intCodes_lt256 p.userId x h
  · exact (by decide : ∀ y ∈ jstr ",\"email\":\"", y < 256) x h
  · exact escapeStr_lt256 p.email he x h
  · exact (by decide : ∀ y ∈ jstr "\",\"exp\":", y < 256) x h
  · exact intCodes_lt256 p.exp x h
  · exact (by decide : ∀ y ∈ jstr "\x7d", y < 256) x h

theorem encodeToken_eq (p : TokenPayload) (he : ∀ x ∈ p.email, x < 256) :
    encodeToken p = some (b64encode (jsonOfPayload p)) := by
  unfold encodeToken btoaJS
  rw [if_pos]
  rw [List.all_eq_true]
  intro x hx
  simpa using jsonOfPayload_lt256 p he x hx

theorem sessionVerifyToken_state (now : Int) (s : SessionState) :
    (sessionVerifyToken now s).1 = s ∨ (sessionVerifyToken now s).1 = ⟨none, none, false⟩ := by
  unfold sessionVerifyToken
  split
  · exact Or.inl rfl
  · split
    · exact Or.inl rfl
    · split
      · exact Or.inl rfl
      · split
        · exact Or.inr rfl
        · exact Or.inl rfl

theorem decodeToken_nil : decodeToken [] = none := by decide

/-! ## Helper lemmas: the JSON string body -/

theorem skipWs_nil : skipWs [] = [] := rfl

theorem skipWs_cons_nows (c : Nat) (cs : List Nat) (h : isWsJson c = false) :
    skipWs (c :: cs) = c :: cs := by
  simp [skipWs, h]

theorem skipWs_head (r : List Nat) : ∀ c cs, skipWs r = c :: cs → isWsJson c = false := by
  induction r with
  | nil => intro c cs h; exact absurd h (by simp [skipWs])
  | cons x xs ih =>
      intro c cs h
      by_cases hx : isWsJson x = true
      · rw [show skipWs (x :: xs) = skipWs xs from by simp [skipWs, hx]] at h
        exact ih c cs h
      · rw [skipWs_cons_nows x xs (by simpa using hx)] at h
        injection h with h1 h2
        subst h1
        simpa using hx

theorem skipWs_idem (r : List Nat) : skipWs (skipWs r) = skipWs r := by
  cases hr : skipWs r with
  | nil => rfl
  | cons c cs => exact skipWs_cons_nows c cs (skipWs_head r c cs hr)

theorem hexVal_hexDigitChar : ∀ d < 16, hexVal (hexDigitChar d) = some d := by decide

theorem hexVal_of_parseHexDigit (h d : Nat) (hp : parseHexDigit h = some d) :
    hexVal h = some d := by
  unfold parseHexDigit at hp
  unfold hexVal
  split at hp
  · rw [if_pos (by omega)]
    exact hp
  · split at hp
    · next h2 =>
        rw [if_neg (by omega), if_pos (by omega)]
        exact hp
    · exact absurd hp (by simp)

theorem jsonEscChar_of_simpleUnescape (e r : Nat) (hs : simpleUnescape e = some r) :
    jsonEscChar e = some r ∧ ¬e = 117 := by
  unfold simpleUnescape at hs
  unfold jsonEscChar
  split at hs
  · next h => subst h; exact ⟨by simpa using hs, by decide⟩
  · split at hs
    · next h => subst h; exact ⟨by simpa using hs, by decide⟩
    · split at hs
      · next h => subst h; exact ⟨by simpa using hs, by decide⟩
      · split at hs
        · next h => subst h; exact ⟨by simpa using hs, by decide⟩
        · split at hs
          · next h => subst h; exact ⟨by simpa using hs, by decide⟩
          · split at hs
            · next h => subst h; exact ⟨by simpa using hs, by decide⟩
            · split at hs
              · next h => subst h; exact ⟨by simpa using hs, by decide⟩
              · exact absurd hs (by simp)

theorem jsonStrBody_quote (cs : List Nat) : jsonStrBody (34 :: cs) = some ([], cs) := by
  rw [jsonStrBody.eq_def]
  simp

theorem jsonStrBody_plain (c : Nat) (cs : List Nat) (h1 : ¬c = 34) (h2 : ¬c = 92)
    (h3 : 32 ≤ c) :
    jsonStrBody (c :: cs) = (jsonStrBody cs).map (fun pr => (c :: pr.1, pr.2)) := by
  rw [jsonStrBody.eq_def]
  simp [h1, h2, h3]

theorem jsonStrBody_esc (e r : Nat) (cs : List Nat) (he : ¬e = 117)
    (hs : jsonEscChar e = some r) :
    jsonStrBody (92 :: e :: cs) = (jsonStrBody cs).map (fun pr => (r :: pr.1, pr.2)) := by
  rw [jsonStrBody.eq_def]
  simp [he, hs]

theorem jsonStrBody_u (h1 h2 h3 h4 d1 d2 d3 d4 : Nat) (cs : List Nat)
    (p1 : hexVal h1 = some d1) (p2 : hexVal h2 = some d2)
    (p3 : hexVal h3 = some d3) (p4 : hexVal h4 = some d4) :
    jsonStrBody (92 :: 117 :: h1 :: h2 :: h3 :: h4 :: cs) =
      (jsonStrBody cs).map
        (fun pr => ((((d1 * 16 + d2) * 16 + d3) * 16 + d4) :: pr.1, pr.2)) := by
  rw [jsonStrBody.eq_def]
  simp [p1, p2, p3, p4]

theorem jsonStrBody_plain_append : ∀ (l : List Nat),
    (∀ c ∈ l, 32 ≤ c ∧ ¬c = 34 ∧ ¬c = 92) →
    ∀ rest : List Nat, jsonStrBody (l ++ 34 :: rest) = some (l, rest)
  | [], _, rest => jsonStrBody_quote rest
  | c :: l2, h, rest => by
      have hc := h c (by simp)
      show jsonStrBody (c :: (l2 ++ 34 :: rest)) = _
      rw [jsonStrBody_plain c _ hc.2.1 hc.2.2 hc.1,
        jsonStrBody_plain_append l2 (fun x hx => h x (by simp [hx])) rest]
      rfl

theorem jsonStrBody_escapeChar (c : Nat) (rest2 : List Nat) :
    jsonStrBody (escapeChar c ++ rest2) =
      (jsonStrBody rest2).map (fun pr => (c :: pr.1, pr.2)) := by
  by_cases h34 : c = 34
  · subst h34
    show jsonStrBody (92 :: 34 :: rest2) = _
    rw [jsonStrBody_esc 34 34 rest2 (by decide) (by decide)]
  by_cases h92 : c = 92
  · subst h92
    show jsonStrBody (92 :: 92 :: rest2) = _
    rw [jsonStrBody_esc 92 92 rest2 (by decide) (by decide)]
  by_cases h8 : c = 8
  · subst h8
    show jsonStrBody (92 :: 98 :: rest2) = _
    rw [jsonStrBody_esc 98 8 rest2 (by decide) (by decide)]
  by_cases h9 : c = 9
  · subst h9
    show jsonStrBody (92 :: 116 :: rest2) = _
    rw [jsonStrBody_esc 116 9 rest2 (by decide) (by decide)]
  by_cases h10 : c = 10
  · subst h10
    show jsonStrBody (92 :: 110 :: rest2) = _
    rw [jsonStrBody_esc 110 10 rest2 (by decide) (by decide)]
  by_cases h12 : c = 12
  · subst h12
    show jsonStrBody (92 :: 102 :: rest2) = _
    rw [jsonStrBody_esc 102 12 rest2 (by decide) (by decide)]
  by_cases h13 : c = 13
  · subst h13
    show jsonStrBody (92 :: 114 :: rest2) = _
    rw [jsonStrBody_esc 114 13 rest2 (by decide) (by decide)]
  by_cases hlt : c < 32
  · rw [escapeChar_control c hlt h8 h9 h10 h12 h13]
    show jsonStrBody (92 :: 117 :: 48 :: 48 :: hexDigitChar (c / 16) ::
      hexDigitChar (c % 16) :: rest2) = _
    rw [jsonStrBody_u 48 48 (hexDigitChar (c / 16)) (hexDigitChar (c % 16))
      0 0 (c / 16) (c % 16) rest2 (by decide) (by decide)
      (hexVal_hexDigitChar (c / 16) (by omega)) (hexVal_hexDigitChar (c % 16) (by omega))]
    have hveq : ((0 * 16 + 0) * 16 + c / 16) * 16 + c % 16 = c := by omega
    rw [hveq]
  · rw [escapeChar_plain c (by omega) h34 h92]
    show jsonStrBody (c :: rest2) = _
    rw [jsonStrBody_plain c rest2 h34 h92 (by omega)]

theorem jsonStrBody_surEscape (c : Nat) (hc : c < 65536) (rest2 : List Nat) :
    jsonStrBody (surEscape c ++ rest2) =
      (jsonStrBody rest2).map (fun pr => (c :: pr.1, pr.2)) := by
  show jsonStrBody (92 :: 117 :: hexDigitChar (c / 4096 % 16) :: hexDigitChar (c / 256 % 16)
    :: hexDigitChar (c / 16 % 16) :: hexDigitChar (c % 16) :: rest2) = _
  rw [jsonStrBody_u (hexDigitChar (c / 4096 % 16)) (hexDigitChar (c / 256 % 16))
    (hexDigitChar (c / 16 % 16)) (hexDigitChar (c % 16))
    (c / 4096 % 16) (c / 256 % 16) (c / 16 % 16) (c % 16) rest2
    (hexVal_hexDigitChar _ (by omega)) (hexVal_hexDigitChar _ (by omega))
    (hexVal_hexDigitChar _ (by omega)) (hexVal_hexDigitChar _ (by omega))]
  have hveq : ((c / 4096 % 16 * 16 + c / 256 % 16) * 16 + c / 16 % 16) * 16 + c % 16 = c := by
    omega
  rw [hveq]

theorem hiSur_lt65536 (c : Nat) (h : isHiSur c = true) : c < 65536 := by
  simp only [isHiSur, Bool.and_eq_true, decide_eq_true_eq] at h
  omega

theorem loSur_lt65536 (c : Nat) (h : isLoSur c = true) : c < 65536 := by
  simp only [isLoSur, Bool.and_eq_true, decide_eq_true_eq] at h
  omega

theorem jsonStrBody_escapeStr : ∀ (e rest : List Nat),
    jsonStrBody (escapeStr e ++ 34 :: rest) = some (e, rest)
  | [], rest => jsonStrBody_quote rest
  | [c], rest => by
      by_cases hh : isHiSur c = true
      · rw [show escapeStr [c] = surEscape c from by simp [escapeStr, hh]]
        rw [jsonStrBody_surEscape c (hiSur_lt65536 c hh) (34 :: rest), jsonStrBody_quote]
        rfl
      · by_cases hl : isLoSur c = true
        · rw [show escapeStr [c] = surEscape c from by
            simp [escapeStr, hl, Bool.or_eq_true]]
          rw [jsonStrBody_surEscape c (loSur_lt65536 c hl) (34 :: rest), jsonStrBody_quote]
          rfl
        · rw [show escapeStr [c] = escapeChar c from by
            simp [escapeStr, hh, hl]]
          rw [jsonStrBody_escapeChar c (34 :: rest), jsonStrBody_quote]
          rfl
  | c :: d :: cs, rest => by
      by_cases hh : isHiSur c = true
      · by_cases hd : isLoSur d = true
        · have ih := jsonStrBody_escapeStr cs rest
          rw [escapeStr_hi_lo c d cs hh hd]
          have hcb : 55296 ≤ c ∧ c ≤ 56319 := by
            simpa only [isHiSur, Bool.and_eq_true, decide_eq_true_eq] using hh
          have hdb : 56320 ≤ d ∧ d ≤ 57343 := by
            simpa only [isLoSur, Bool.and_eq_true, decide_eq_true_eq] using hd
          show jsonStrBody (c :: d :: (escapeStr cs ++ 34 :: rest)) = _
          rw [jsonStrBody_plain c _ (by omega) (by omega) (by omega),
            jsonStrBody_plain d _ (by omega) (by omega) (by omega), ih]
          rfl
        · have ih := jsonStrBody_escapeStr (d :: cs) rest
          rw [escapeStr_hi_notlo c d cs hh (by simpa using hd), List.append_assoc]
          rw [jsonStrBody_surEscape c (hiSur_lt65536 c hh) _, ih]
          rfl
      · by_cases hl : isLoSur c = true
        · have ih := jsonStrBody_escapeStr (d :: cs) rest
          rw [escapeStr_lo c (d :: cs) (by simpa using hh) hl, List.append_assoc]
          rw [jsonStrBody_surEscape c (loSur_lt65536 c hl) _, ih]
          rfl
        · have ih := jsonStrBody_escapeStr (d :: cs) rest
          rw [escapeStr_cons_plain c (d :: cs) (by simpa using hh) (by simpa using hl),
            List.append_assoc]
          rw [jsonStrBody_escapeChar c _, ih]
          rfl

theorem jsonStrBody_of_parseStrChars (s : List Nat) : ∀ raw rest,
    parseStrChars s = some (raw, rest) → jsonStrBody s = some (raw, rest) := by
  induction s using parseStrChars.induct with
  | case1 =>
      intro raw rest h
      rw [parseStrChars.eq_def] at h
      simp at h
  | case2 cs =>
      intro raw rest h
      rw [parseStrChars_quoteStep] at h
      rw [jsonStrBody_quote]
      exact h
  | case3 hne =>
      intro raw rest h
      rw [parseStrChars.eq_def] at h
      simp at h
  | case4 h1 h2 h3 h4 cs3 d1 d2 d3 d4 p4 p3 p2 p1 v hok hne ih =>
      intro raw rest h
      rw [parseStrChars_uStep h1 h2 h3 h4 d1 d2 d3 d4 cs3 p1 p2 p3 p4 hok] at h
      cases hp : parseStrChars cs3 with
      | none => rw [hp] at h; simp at h
      | some pr =>
          obtain ⟨raw2, rest2⟩ := pr
          rw [hp] at h
          simp only [Option.map_some', Option.some.injEq, Prod.mk.injEq] at h
          obtain ⟨rfl, rfl⟩ := h
          rw [jsonStrBody_u h1 h2 h3 h4 d1 d2 d3 d4 cs3
            (hexVal_of_parseHexDigit h1 d1 p1) (hexVal_of_parseHexDigit h2 d2 p2)
            (hexVal_of_parseHexDigit h3 d3 p3) (hexVal_of_parseHexDigit h4 d4 p4),
            ih raw2 rest2 hp]
          rfl
  | case5 h1 h2 h3 h4 cs3 d1 d2 d3 d4 p4 p3 p2 p1 v hnok hne =>
      intro raw rest h
      rw [parseStrChars.eq_def] at h
      simp [p1, p2, p3, p4, hnok] at h
  | case6 h1 h2 h3 h4 cs3 hfail hne =>
      intro raw rest h
      have hnone : parseStrChars (92 :: 117 :: h1 :: h2 :: h3 :: h4 :: cs3) = none := by
        rw [parseStrChars.eq_def]
        rcases q1 : parseHexDigit h1 with _ | d1
        · simp [q1]
        · rcases q2 : parseHexDigit h2 with _ | d2
          · simp [q1, q2]
          · rcases q3 : parseHexDigit h3 with _ | d3
            · simp [q1, q2, q3]
            · rcases q4 : parseHexDigit h4 with _ | d4
              · simp [q1, q2, q3, q4]
              · exact (hfail d1 d2 d3 d4 q1 q2 q3 q4).elim
      rw [hnone] at h
      simp at h
  | case7 cs hshape hne =>
      intro raw rest h
      rcases cs with _ | ⟨a1, _ | ⟨a2, _ | ⟨a3, _ | ⟨a4, tl⟩⟩⟩⟩
      · rw [parseStrChars.eq_def] at h
        simp at h
      · rw [parseStrChars.eq_def] at h
        simp at h
      · rw [parseStrChars.eq_def] at h
        simp at h
      · rw [parseStrChars.eq_def] at h
        simp at h
      · exact (hshape a1 a2 a3 a4 tl rfl).elim
  | case8 e cs hne117 r hs hne ih =>
      intro raw rest h
      rw [parseStrChars_escStep e r hne117 hs] at h
      cases hp : parseStrChars cs with
      | none => rw [hp] at h; simp at h
      | some pr =>
          obtain ⟨raw2, rest2⟩ := pr
          rw [hp] at h
          simp only [Option.map_some', Option.some.injEq, Prod.mk.injEq] at h
          obtain ⟨rfl, rfl⟩ := h
          obtain ⟨hje, _⟩ := jsonEscChar_of_simpleUnescape e r hs
          rw [jsonStrBody_esc e r cs hne117 hje, ih raw2 rest2 hp]
          rfl
  | case9 e cs hne117 hnone hne =>
      intro raw rest h
      rw [parseStrChars.eq_def] at h
      simp [hne117, hnone] at h
  | case10 c cs hne34 hne92 hcond ih =>
      intro raw rest h
      rw [parseStrChars_plainStep c hne34 hne92 hcond] at h
      cases hp : parseStrChars cs with
      | none => rw [hp] at h; simp at h
      | some pr =>
          obtain ⟨raw2, rest2⟩ := pr
          rw [hp] at h
          simp only [Option.map_some', Option.some.injEq, Prod.mk.injEq] at h
          obtain ⟨rfl, rfl⟩ := h
          rw [jsonStrBody_plain c cs hne34 hne92 hcond.1, ih raw2 rest2 hp]
          rfl
  | case11 c cs hne34 hne92 hncond =>
      intro raw rest h
      rw [parseStrChars.eq_def] at h
      simp [hne34, hne92, hncond] at h

/-! ## Helper lemmas: JSON numbers on canonical integer texts -/

theorem digitsList_append : ∀ (ds : List Nat), (∀ d ∈ ds, isDigitCode d = true) →
    ∀ rest : List Nat, headDigit rest = false → digitsList (ds ++ rest) = (ds, rest)
  | [], _, rest, hrest => by
      cases rest with
      | nil => rfl
      | cons r rs =>
          have hr : isDigitCode r = false := by simpa [headDigit] using hrest
          simp [digitsList, hr]
  | d :: ds2, h, rest, hrest => by
      have hd := h d (by simp)
      have ih := digitsList_append ds2 (fun x hx => h x (by simp [hx])) rest hrest
      show digitsList (d :: (ds2 ++ rest)) = _
      simp [digitsList, hd, ih]

theorem natCodes_digits (n : Nat) : ∀ d ∈ natCodes n, isDigitCode d = true := by
  by_cases h0 : n = 0
  · subst h0
    rw [natCodes_zero]
    intro d hd
    have : d = 48 := by simpa using hd
    subst this
    decide
  · obtain ⟨c, cs, hnc, hc1, hc2, hds, _⟩ := natCodes_spec n (by omega)
    rw [hnc]
    intro d hd
    rcases List.mem_cons.mp hd with rfl | h2
    · simp only [isDigitCode, Bool.and_eq_true, decide_eq_true_eq]
      omega
    · exact hds d h2

theorem jsonNumExp_nil (m e10 : Int) : jsonNumExp m e10 [] = some (qOfSci m e10, []) := rfl

theorem jsonNumExp_cons (m e10 : Int) (e : Nat) (t : List Nat) (h1 : ¬e = 101)
    (h2 : ¬e = 69) : jsonNumExp m e10 (e :: t) = some (qOfSci m e10, e :: t) := by
  simp [jsonNumExp, h1, h2]

theorem jsonNumTail_cons (ip : Nat) (c : Nat) (t : List Nat) (h46 : ¬c = 46) :
    jsonNumTail ip (c :: t) = jsonNumExp (ip : Int) 0 (c :: t) := by
  simp [jsonNumTail, h46]

theorem qOfSci_zero (m : Int) : qOfSci m 0 = (m : ℚ) := by
  simp [qOfSci]

theorem jsonNumMag_natCodes (n : Nat) (h2 : Nat) (t : List Nat)
    (hd : isDigitCode h2 = false) (h46 : ¬h2 = 46) (h101 : ¬h2 = 101) (h69 : ¬h2 = 69) :
    jsonNumMag (natCodes n ++ h2 :: t) = some ((n : ℚ), h2 :: t) := by
  by_cases h0 : n = 0
  · subst h0
    rw [natCodes_zero]
    show jsonNumMag (48 :: (h2 :: t)) = _
    rw [show jsonNumMag (48 :: (h2 :: t)) = jsonNumTail 0 (h2 :: t) from by
      simp [jsonNumMag]]
    rw [jsonNumTail_cons 0 h2 t h46, jsonNumExp_cons _ _ h2 t h101 h69, qOfSci_zero]
    norm_num
  · obtain ⟨c, cs, hnc, hc1, hc2, hds, hval⟩ := natCodes_spec n (by omega)
    rw [hnc]
    show jsonNumMag (c :: (cs ++ h2 :: t)) = _
    have hcd : isDigitCode c = true := by
      simp only [isDigitCode, Bool.and_eq_true, decide_eq_true_eq]
      omega
    have hc48 : ¬c = 48 := by omega
    rw [show jsonNumMag (c :: (cs ++ h2 :: t)) =
        (match digitsList (cs ++ h2 :: t) with
         | (ds, r2) => jsonNumTail (digitsVal (c - 48) ds) r2) from by
      simp [jsonNumMag, hc48, hcd]]
    rw [digitsList_append cs hds (h2 :: t) (by simpa [headDigit] using hd)]
    show jsonNumTail (digitsVal (c - 48) cs) (h2 :: t) = _
    rw [jsonNumTail_cons _ h2 t h46, jsonNumExp_cons _ _ h2 t h101 h69, qOfSci_zero, hval]
    norm_cast

theorem jsonNumber_intCodes (z : Int) (h2 : Nat) (t : List Nat)
    (hd : isDigitCode h2 = false) (h46 : ¬h2 = 46) (h101 : ¬h2 = 101) (h69 : ¬h2 = 69) :
    jsonNumber (intCodes z ++ h2 :: t) = some ((z : ℚ), h2 :: t) := by
  by_cases hz : z < 0
  · unfold intCodes
    rw [if_pos hz]
    show jsonNumber (45 :: (natCodes z.natAbs ++ h2 :: t)) = _
    rw [show jsonNumber (45 :: (natCodes z.natAbs ++ h2 :: t)) =
        (jsonNumMag (natCodes z.natAbs ++ h2 :: t)).map (fun pr => (-pr.1, pr.2)) from by
      simp [jsonNumber]]
    rw [jsonNumMag_natCodes z.natAbs h2 t hd h46 h101 h69]
    have hq : -((z.natAbs : Nat) : ℚ) = (z : ℚ) := by
      have h3 : ((z.natAbs : Nat) : ℚ) = -(z : ℚ) := by
        rw [Int.cast_natAbs]
        exact_mod_cast abs_of_neg hz
      rw [h3, neg_neg]
    show some (-((z.natAbs : Nat) : ℚ), h2 :: t) = _
    rw [hq]
  · unfold intCodes
    rw [if_neg hz]
    have hshape : ∃ c cs, natCodes z.toNat = c :: cs ∧ 48 ≤ c ∧ c ≤ 57 := by
      by_cases h0 : z.toNat = 0
      · rw [h0, natCodes_zero]
        exact ⟨48, [], rfl, le_refl _, by omega⟩
      · obtain ⟨c, cs, hnc, hc1, hc2, _, _⟩ := natCodes_spec z.toNat (by omega)
        exact ⟨c, cs, hnc, by omega, hc2⟩
    obtain ⟨c, cs, hnc, hcl, hcu⟩ := hshape
    rw [hnc]
    show jsonNumber (c :: (cs ++ h2 :: t)) = _
    have hc45 : ¬c = 45 := by omega
    rw [show jsonNumber (c :: (cs ++ h2 :: t)) = jsonNumMag (c :: (cs ++ h2 :: t)) from by
      simp [jsonNumber, hc45]]
    rw [show (c :: (cs ++ h2 :: t)) = natCodes z.toNat ++ h2 :: t from by rw [hnc]; rfl]
    rw [jsonNumMag_natCodes z.toNat h2 t hd h46 h101 h69]
    have hq : ((z.toNat : Nat) : ℚ) = (z : ℚ) := by
      have hzn : ((z.toNat : Nat) : Int) = z := by omega
      exact_mod_cast hzn
    rw [hq]

/-! ## Helper lemmas: payload object readouts and comparisons -/

theorem payloadObj_get_exp (p : TokenPayload) :
    jsGetField (payloadObj p) (jstr "exp") = some (JsonValue.num (p.exp : ℚ)) := rfl

theorem payloadObj_get_userId (p : TokenPayload) :
    jsGetField (payloadObj p) (jstr "userId") = some (JsonValue.num (p.userId : ℚ)) := rfl

theorem payloadObj_get_email (p : TokenPayload) :
    jsGetField (payloadObj p) (jstr "email") = some (JsonValue.str p.email) := rfl

theorem payloadObj_not_null (p : TokenPayload) : jsIsNull (payloadObj p) = false := rfl

theorem jsLtInt_cast (e now : Int) :
    jsLtInt (jsToNumber (some (JsonValue.num (e : ℚ)))) now = decide (e < now) := by
  show jsLtInt (JsNum.val (e : ℚ)) now = _
  show decide ((e : ℚ) < (now : ℚ)) = decide (e < now)
  exact decide_eq_decide.mpr Int.cast_lt

theorem jsStrictEqNum_cast (n u : Int) :
    jsStrictEqNum n (some (JsonValue.num (u : ℚ))) = decide (n = u) := by
  show decide ((n : ℚ) = (u : ℚ)) = decide (n = u)
  exact decide_eq_decide.mpr Int.cast_inj

/-! ## Helper lemmas: parsing the serialized token record with JSON.parse -/

theorem jsonRec_val_str (f : Nat) (cs : List Nat) :
    jsonRec (f + 1) JMode.val (34 :: cs) =
      (jsonStrBody cs).map (fun pr => (JOut.v (JsonValue.str pr.1), pr.2)) := by
  rw [jsonRec.eq_def]
  simp

theorem jsonRec_val_obj_some (f : Nat) (cs : List Nat)
    (l : List (List Nat × JsonValue)) (r2 : List Nat)
    (h : jsonRec f (JMode.mems true) cs = some (JOut.ms l, r2)) :
    jsonRec (f + 1) JMode.val (123 :: cs) = some (JOut.v (JsonValue.obj l), r2) := by
  rw [jsonRec.eq_def]
  simp [h]

theorem jsonRec_val_num (f : Nat) (c : Nat) (cs : List Nat) (q : ℚ) (r2 : List Nat)
    (h34 : ¬c = 34) (h123 : ¬c = 123) (h91 : ¬c = 91) (h116 : ¬c = 116)
    (h102 : ¬c = 102) (h110 : ¬c = 110) (h : jsonNumber (c :: cs) = some (q, r2)) :
    jsonRec (f + 1) JMode.val (c :: cs) = some (JOut.v (JsonValue.num q), r2) := by
  rw [jsonRec.eq_def]
  simp [h34, h123, h91, h116, h102, h110, h]

theorem jsonRec_mems_comma (f : Nat) (first : Bool) (r kr k r2 cs2 r3 cs3 r4 : List Nat)
    (v : JsonValue) (l : List (List Nat × JsonValue))
    (h1 : skipWs r = 34 :: kr) (h2 : jsonStrBody kr = some (k, r2))
    (h3 : skipWs r2 = 58 :: cs2)
    (h4 : jsonRec f JMode.val (skipWs cs2) = some (JOut.v v, r3))
    (h5 : skipWs r3 = 44 :: cs3)
    (h6 : jsonRec f (JMode.mems false) cs3 = some (JOut.ms l, r4)) :
    jsonRec (f + 1) (JMode.mems first) r = some (JOut.ms ((k, v) :: l), r4) := by
  rw [jsonRec.eq_def]
  simp [h1, h2, h3, h4, h5, h6]

theorem jsonRec_mems_close (f : Nat) (first : Bool) (r kr k r2 cs2 r3 cs3 : List Nat)
    (v : JsonValue)
    (h1 : skipWs r = 34 :: kr) (h2 : jsonStrBody kr = some (k, r2))
    (h3 : skipWs r2 = 58 :: cs2)
    (h4 : jsonRec f JMode.val (skipWs cs2) = some (JOut.v v, r3))
    (h5 : skipWs r3 = 125 :: cs3) :
    jsonRec (f + 1) (JMode.mems first) r = some (JOut.ms [(k, v)], cs3) := by
  rw [jsonRec.eq_def]
  simp [h1, h2, h3, h4, h5]

theorem intCodes_head : ∀ z : Int, ∃ c t2, intCodes z = c :: t2 ∧
    (c = 45 ∨ (48 ≤ c ∧ c ≤ 57)) := by
  intro z
  by_cases hz : z < 0
  · refine ⟨45, natCodes z.natAbs, ?_, Or.inl rfl⟩
    unfold intCodes
    rw [if_pos hz]
  · have hshape : ∃ c cs, natCodes z.toNat = c :: cs ∧ 48 ≤ c ∧ c ≤ 57 := by
      by_cases h0 : z.toNat = 0
      · rw [h0, natCodes_zero]
        exact ⟨48, [], rfl, le_refl _, by omega⟩
      · obtain ⟨c, cs, hnc, hc1, hc2, _, _⟩ := natCodes_spec z.toNat (by omega)
        exact ⟨c, cs, hnc, by omega, hc2⟩
    obtain ⟨c, cs, hnc, hcl, hcu⟩ := hshape
    refine ⟨c, cs, ?_, Or.inr ⟨hcl, hcu⟩⟩
    unfold intCodes
    rw [if_neg hz, hnc]

theorem jsonRec_val_intCodes (f : Nat) (z : Int) (h2 : Nat) (t : List Nat)
    (hd : isDigitCode h2 = false) (h46 : ¬h2 = 46) (h101 : ¬h2 = 101) (h69 : ¬h2 = 69) :
    jsonRec (f + 1) JMode.val (intCodes z ++ h2 :: t) =
      some (JOut.v (JsonValue.num (z : ℚ)), h2 :: t) := by
  obtain ⟨c, t2, hct, hcb⟩ := intCodes_head z
  have hnum := jsonNumber_intCodes z h2 t hd h46 h101 h69
  rw [hct] at hnum ⊢
  show jsonRec (f + 1) JMode.val (c :: (t2 ++ h2 :: t)) = _
  exact jsonRec_val_num f c (t2 ++ h2 :: t) ((z : ℚ)) (h2 :: t)
    (by omega) (by omega) (by omega) (by omega) (by omega) (by omega) hnum

theorem skipWs_intCodes (z : Int) (rest : List Nat) :
    skipWs (intCodes z ++ rest) = intCodes z ++ rest := by
  obtain ⟨c, t2, hct, hcb⟩ := intCodes_head z
  rw [hct]
  have hcws : isWsJson c = false := by
    simp only [isWsJson, Bool.or_eq_false_iff, decide_eq_false_iff_not]
    omega
  show skipWs (c :: (t2 ++ rest)) = _
  rw [skipWs_cons_nows c (t2 ++ rest) hcws]
  rfl

theorem jsonRec_payloadText (uid ex : Int) (em SB : List Nat)
    (hsb : jsonStrBody SB = some (em, jstr ",\"exp\":" ++ (intCodes ex ++ jstr "\x7d"))) :
    ∀ f : Nat, jsonRec (f + 5) JMode.val
      (jstr "\x7b\"userId\":" ++ (intCodes uid ++ (jstr ",\"email\":\"" ++ SB))) =
      some (JOut.v (payloadObj ⟨uid, em, ex⟩), []) := by
  intro f
  -- the innermost member: "exp": <intCodes ex> }
  have hm3 : jsonRec (f + 2) (JMode.mems false)
      (jstr "\"exp\":" ++ (intCodes ex ++ jstr "\x7d")) =
      some (JOut.ms [(jstr "exp", JsonValue.num (ex : ℚ))], []) := by
    apply jsonRec_mems_close (f + 1) false _ (jstr "exp\":" ++ (intCodes ex ++ jstr "\x7d"))
      (jstr "exp") (58 :: (intCodes ex ++ jstr "\x7d")) (intCodes ex ++ jstr "\x7d")
      (125 :: []) [] (JsonValue.num (ex : ℚ))
    · rw [show jstr "\"exp\":" = 34 :: jstr "exp\":" from by decide]
      show skipWs (34 :: (jstr "exp\":" ++ (intCodes ex ++ jstr "\x7d"))) = _
      rw [skipWs_cons_nows _ _ (by decide)]
    · rw [show jstr "exp\":" = jstr "exp" ++ [34, 58] from by decide]
      show jsonStrBody (jstr "exp" ++ (34 :: (58 :: (intCodes ex ++ jstr "\x7d")))) = _
      rw [jsonStrBody_plain_append (jstr "exp") (by decide) _]
    · exact skipWs_cons_nows _ _ (by decide)
    · rw [skipWs_intCodes ex (jstr "\x7d")]
      rw [show jstr "\x7d" = 125 :: ([] : List Nat) from by decide]
      exact jsonRec_val_intCodes f ex 125 [] (by decide) (by decide) (by decide) (by decide)
    · rfl
  -- the middle member: "email": "<SB>"
  have hm2 : jsonRec (f + 3) (JMode.mems false) (jstr "\"email\":\"" ++ SB) =
      some (JOut.ms [(jstr "email", JsonValue.str em),
        (jstr "exp", JsonValue.num (ex : ℚ))], []) := by
    apply jsonRec_mems_comma (f + 2) false _ (jstr "email\":\"" ++ SB) (jstr "email")
      (58 :: (34 :: SB)) (34 :: SB)
      (jstr ",\"exp\":" ++ (intCodes ex ++ jstr "\x7d"))
      (jstr "\"exp\":" ++ (intCodes ex ++ jstr "\x7d")) []
      (JsonValue.str em) [(jstr "exp", JsonValue.num (ex : ℚ))]
    · rw [show jstr "\"email\":\"" = 34 :: jstr "email\":\"" from by decide]
      show skipWs (34 :: (jstr "email\":\"" ++ SB)) = _
      rw [skipWs_cons_nows _ _ (by decide)]
    · rw [show jstr "email\":\"" = jstr "email" ++ [34, 58, 34] from by decide]
      show jsonStrBody (jstr "email" ++ (34 :: (58 :: (34 :: SB)))) = _
      rw [jsonStrBody_plain_append (jstr "email") (by decide) _]
    · exact skipWs_cons_nows _ _ (by decide)
    · rw [skipWs_cons_nows _ _ (by decide), jsonRec_val_str (f + 1) SB, hsb]
      rfl
    · rw [show jstr ",\"exp\":" = 44 :: jstr "\"exp\":" from by decide]
      show skipWs (44 :: (jstr "\"exp\":" ++ (intCodes ex ++ jstr "\x7d"))) = _
      rw [skipWs_cons_nows _ _ (by decide)]
    · exact hm3
  -- the first member: "userId": <intCodes uid>
  have hm1 : jsonRec (f + 4) (JMode.mems true)
      (jstr "\"userId\":" ++ (intCodes uid ++ (jstr ",\"email\":\"" ++ SB))) =
      some (JOut.ms [(jstr "userId", JsonValue.num (uid : ℚ)),
        (jstr "email", JsonValue.str em), (jstr "exp", JsonValue.num (ex : ℚ))], []) := by
    apply jsonRec_mems_comma (f + 3) true _
      (jstr "userId\":" ++ (intCodes uid ++ (jstr ",\"email\":\"" ++ SB)))
      (jstr "userId")
      (58 :: (intCodes uid ++ (jstr ",\"email\":\"" ++ SB)))
      (intCodes uid ++ (jstr ",\"email\":\"" ++ SB))
      (jstr ",\"email\":\"" ++ SB)
      (jstr "\"email\":\"" ++ SB) []
      (JsonValue.num (uid : ℚ))
      [(jstr "email", JsonValue.str em), (jstr "exp", JsonValue.num (ex : ℚ))]
    · rw [show jstr "\"userId\":" = 34 :: jstr "userId\":" from by decide]
      show skipWs (34 :: (jstr "userId\":" ++ (intCodes uid ++ (jstr ",\"email\":\"" ++ SB)))) = _
      rw [skipWs_cons_nows _ _ (by decide)]
    · rw [show jstr "userId\":" = jstr "userId" ++ [34, 58] from by decide]
      show jsonStrBody (jstr "userId" ++
        (34 :: (58 :: (intCodes uid ++ (jstr ",\"email\":\"" ++ SB))))) = _
      rw [jsonStrBody_plain_append (jstr "userId") (by decide) _]
    · exact skipWs_cons_nows _ _ (by decide)
    · rw [skipWs_intCodes uid (jstr ",\"email\":\"" ++ SB)]
      rw [show jstr ",\"email\":\"" ++ SB = 44 :: (jstr "\"email\":\"" ++ SB) from by
        rw [show jstr ",\"email\":\"" = 44 :: jstr "\"email\":\"" from by decide]
        rfl]
      exact jsonRec_val_intCodes (f + 2) uid 44 (jstr "\"email\":\"" ++ SB)
        (by decide) (by decide) (by decide) (by decide)
    · exact skipWs_cons_nows _ _ (by decide)
    · exact hm2
  rw [show jstr "\x7b\"userId\":" = 123 :: jstr "\"userId\":" from by decide]
  show jsonRec (f + 4 + 1) JMode.val
    (123 :: (jstr "\"userId\":" ++ (intCodes uid ++ (jstr ",\"email\":\"" ++ SB)))) = _
  exact jsonRec_val_obj_some (f + 4) _ _ [] hm1

theorem jsonParse_payloadText (uid ex : Int) (em SB : List Nat)
    (hsb : jsonStrBody SB = some (em, jstr ",\"exp\":" ++ (intCodes ex ++ jstr "\x7d"))) :
    jsonParse (jstr "\x7b\"userId\":" ++ (intCodes uid ++ (jstr ",\"email\":\"" ++ SB))) =
      some (payloadObj ⟨uid, em, ex⟩) := by
  unfold jsonParse
  have hlen : 10 ≤ (jstr "\x7b\"userId\":" ++
      (intCodes uid ++ (jstr ",\"email\":\"" ++ SB))).length := by
    rw [List.length_append]
    have : (jstr "\x7b\"userId\":").length = 10 := by decide
    omega
  obtain ⟨f, hf⟩ : ∃ f, 2 * (jstr "\x7b\"userId\":" ++
      (intCodes uid ++ (jstr ",\"email\":\"" ++ SB))).length + 2 = f + 5 :=
    ⟨2 * (jstr "\x7b\"userId\":" ++ (intCodes uid ++ (jstr ",\"email\":\"" ++ SB))).length
      + 2 - 5, by omega⟩
  have hws : skipWs (jstr "\x7b\"userId\":" ++ (intCodes uid ++ (jstr ",\"email\":\"" ++ SB)))
      = jstr "\x7b\"userId\":" ++ (intCodes uid ++ (jstr ",\"email\":\"" ++ SB)) := by
    rw [show jstr "\x7b\"userId\":" = 123 :: jstr "\"userId\":" from by decide]
    show skipWs (123 :: (jstr "\"userId\":" ++ (intCodes uid ++ (jstr ",\"email\":\"" ++ SB)))) = _
    rw [skipWs_cons_nows _ _ (by decide)]
    rfl
  rw [hf, hws, jsonRec_payloadText uid ex em SB hsb f]
  rfl

theorem jsonParse_jsonOfPayload (p : TokenPayload) :
    jsonParse (jsonOfPayload p) = some (payloadObj p) := by
  have hshape : jsonOfPayload p = jstr "\x7b\"userId\":" ++ (intCodes p.userId ++
      (jstr ",\"email\":\"" ++ (escapeStr p.email ++
        34 :: (jstr ",\"exp\":" ++ (intCodes p.exp ++ jstr "\x7d"))))) := by
    simp [jsonOfPayload, jstrQuoteExp, List.append_assoc]
  rw [hshape]
  exact jsonParse_payloadText p.userId p.exp p.email _
    (jsonStrBody_escapeStr p.email (jstr ",\"exp\":" ++ (intCodes p.exp ++ jstr "\x7d")))

theorem jsonParse_of_parsePayload (j : List Nat) (p : TokenPayload)
    (h : parsePayload j = some p) : jsonParse j = some (payloadObj p) := by
  unfold parsePayload at h
  cases e1 : expectLit (jstr "\x7b\"userId\":") j with
  | none => rw [e1] at h; simp at h
  | some r1 =>
      rw [e1, Option.some_bind] at h
      cases e2 : parseIntCanon r1 with
      | none => rw [e2] at h; simp at h
      | some pr2 =>
          obtain ⟨uid, r2⟩ := pr2
          rw [e2, Option.some_bind] at h
          cases e3 : expectLit (jstr ",\"email\":\"") r2 with
          | none => rw [e3] at h; simp at h
          | some r3 =>
              rw [e3, Option.some_bind] at h
              cases e4 : parseStrChars r3 with
              | none => rw [e4] at h; simp at h
              | some pr4 =>
                  obtain ⟨em, r4⟩ := pr4
                  rw [e4, Option.some_bind] at h
                  cases e5 : expectLit (jstr ",\"exp\":") r4 with
                  | none => rw [e5] at h; simp at h
                  | some r5 =>
                      rw [e5, Option.some_bind] at h
                      cases e6 : parseIntCanon r5 with
                      | none => rw [e6] at h; simp at h
                      | some pr6 =>
                          obtain ⟨ex, r6⟩ := pr6
                          rw [e6, Option.some_bind] at h
                          cases e7 : expectLit (jstr "\x7d") r6 with
                          | none => rw [e7] at h; simp at h
                          | some r7 =>
                              rw [e7, Option.some_bind] at h
                              by_cases h7 : r7 = []
                              · subst h7
                                rw [if_pos rfl] at h
                                injection h with h
                                subst h
                                have q1 := expectLit_sound _ _ _ e1
                                have q2 := parseIntCanon_sound _ _ _ e2
                                have q3 := expectLit_sound _ _ _ e3
                                have q4 := jsonStrBody_of_parseStrChars r3 em r4 e4
                                have q5 := expectLit_sound _ _ _ e5
                                have q6 := parseIntCanon_sound _ _ _ e6
                                have q7 := expectLit_sound _ _ _ e7
                                rw [List.append_nil] at q7
                                subst q7
                                subst q6
                                subst q5
                                subst q3
                                subst q2
                                subst q1
                                exact jsonParse_payloadText uid ex em r3
                                  (by simpa [List.append_assoc] using q4)
                              · rw [if_neg h7] at h
                                simp at h

theorem jsonDecode_decodeToken (tok : List Nat) (p : TokenPayload)
    (h : decodeToken tok = some p) : jsonDecode tok = some (payloadObj p) := by
  unfold decodeToken at h
  cases ha : atobJS tok with
  | none => rw [ha] at h; simp at h
  | some j =>
      rw [ha, Option.some_bind] at h
      unfold jsonDecode
      rw [ha, Option.some_bind]
      exact jsonParse_of_parsePayload j p h

theorem jsonDecode_encodeToken (p : TokenPayload) (t : List Nat)
    (h : encodeToken p = some t) : jsonDecode t = some (payloadObj p) := by
  obtain ⟨rfl, hall⟩ := encodeToken_some p t h
  unfold jsonDecode
  rw [atobJS_b64encode _ hall, Option.some_bind]
  exact jsonParse_jsonOfPayload p

/-! ## Helper lemmas: the verify operation -/

theorem verifyTokenAPI_some (token : List Nat) (store : List StoredUser) (now : Int)
    (v : JsonValue) (h : jsonDecode token = some v) :
    verifyTokenAPI token store now =
      (if jsIsNull v then .failure (jstr "Token verification failed")
       else if jsLtInt (jsToNumber (jsGetField v (jstr "exp"))) now then
         .failure (jstr "Token expired")
       else
         match store.find? (fun u => jsStrictEqNum u.id (jsGetField v (jstr "userId"))) with
         | none => .failure (jstr "User not found")
         | some u => .success (withoutPassword u)) := by
  unfold verifyTokenAPI
  rw [h]

theorem rawWide_one (c : Nat) :
    rawWide [c] = (!(isHiSur c || isLoSur c) && decide (256 ≤ c)) := rfl

theorem rawWide_two (c d : Nat) (cs : List Nat) :
    rawWide (c :: d :: cs) =
      (if isHiSur c then isLoSur d || rawWide (d :: cs)
       else (!(isLoSur c) && decide (256 ≤ c)) || rawWide (d :: cs)) := rfl

theorem surEscape_lt256 (c : Nat) : ∀ x ∈ surEscape c, x < 256 := by
  intro x hx
  unfold surEscape at hx
  have q1 := hexDigitChar_lt256 (c / 4096 % 16) (Nat.mod_lt _ (by omega))
  have q2 := hexDigitChar_lt256 (c / 256 % 16) (Nat.mod_lt _ (by omega))
  have q3 := hexDigitChar_lt256 (c / 16 % 16) (Nat.mod_lt _ (by omega))
  have q4 := hexDigitChar_lt256 (c % 16) (Nat.mod_lt _ (by omega))
  simp at hx
  rcases hx with rfl | rfl | rfl | rfl | rfl | rfl <;> omega

theorem escapeChar_big (c : Nat) (h : 256 ≤ c) : escapeChar c = [c] := by
  unfold escapeChar
  split_ifs with a1 a2 a3 a4 a5 a6 a7 a8 <;> first | rfl | omega

theorem escapeStr_safe : ∀ (l : List Nat), rawWide l = false →
    ∀ x ∈ escapeStr l, x < 256
  | [], _ => by simp [escapeStr_nil]
  | [c], h => by
      intro x hx
      rw [rawWide_one] at h
      by_cases hhi : isHiSur c = true
      · rw [escapeStr_hi_nil c hhi] at hx
        exact surEscape_lt256 c x hx
      · have hhi0 : isHiSur c = false := by simpa using hhi
        by_cases hlo : isLoSur c = true
        · rw [escapeStr_lo c [] hhi0 hlo] at hx
          rcases List.mem_append.mp hx with h1 | h2
          · exact surEscape_lt256 c x h1
          · simp [escapeStr_nil] at h2
        · have hlo0 : isLoSur c = false := by simpa using hlo
          rw [escapeStr_cons_plain c [] hhi0 hlo0] at hx
          rcases List.mem_append.mp hx with h1 | h2
          · have hc : c < 256 := by
              rw [hhi0, hlo0] at h
              simpa using h
            exact escapeChar_lt256 c hc x h1
          · simp [escapeStr_nil] at h2
  | c :: d :: cs, h => by
      intro x hx
      rw [rawWide_two] at h
      by_cases hhi : isHiSur c = true
      · rw [if_pos hhi] at h
        have hld : isLoSur d = false := by
          cases hld2 : isLoSur d with
          | false => rfl
          | true => rw [hld2] at h; simp at h
        have htl : rawWide (d :: cs) = false := by
          rw [hld] at h
          simpa using h
        rw [escapeStr_hi_notlo c d cs hhi hld] at hx
        rcases List.mem_append.mp hx with h1 | h2
        · exact surEscape_lt256 c x h1
        · exact escapeStr_safe (d :: cs) htl x h2
      · have hhi0 : isHiSur c = false := by simpa using hhi
        rw [if_neg (by simp [hhi0])] at h
        have hhead : (!(isLoSur c) && decide (256 ≤ c)) = false := by
          cases hh : (!(isLoSur c) && decide (256 ≤ c)) with
          | false => rfl
          | true => rw [hh] at h; simp at h
        have htl : rawWide (d :: cs) = false := by
          rw [hhead] at h
          simpa using h
        by_cases hlo : isLoSur c = true
        · rw [escapeStr_lo c (d :: cs) hhi0 hlo] at hx
          rcases List.mem_append.mp hx with h1 | h2
          · exact surEscape_lt256 c x h1
          · exact escapeStr_safe (d :: cs) htl x h2
        · have hlo0 : isLoSur c = false := by simpa using hlo
          rw [escapeStr_cons_plain c (d :: cs) hhi0 hlo0] at hx
          rcases List.mem_append.mp hx with h1 | h2
          · have hc : c < 256 := by
              rw [hlo0] at hhead
              simpa using hhead
            exact escapeChar_lt256 c hc x h1
          · exact escapeStr_safe (d :: cs) htl x h2

theorem escapeStr_wide : ∀ (l : List Nat), rawWide l = true →
    ∃ x ∈ escapeStr l, 256 ≤ x
  | [], h => by simp [rawWide] at h
  | [c], h => by
      rw [rawWide_one] at h
      by_cases hhi : isHiSur c = true
      · rw [hhi] at h
        simp at h
      · by_cases hlo : isLoSur c = true
        · rw [hlo] at h
          simp at h
        · have hhi0 : isHiSur c = false := by simpa using hhi
          have hlo0 : isLoSur c = false := by simpa using hlo
          rw [hhi0, hlo0] at h
          simp at h
          refine ⟨c, ?_, h⟩
          rw [escapeStr_cons_plain c [] hhi0 hlo0, escapeChar_big c h]
          simp
  | c :: d :: cs, h => by
      rw [rawWide_two] at h
      by_cases hhi : isHiSur c = true
      · rw [if_pos hhi] at h
        have hcb : 55296 ≤ c ∧ c ≤ 56319 := by simpa [isHiSur] using hhi
        by_cases hld : isLoSur d = true
        · refine ⟨c, ?_, by omega⟩
          rw [escapeStr_hi_lo c d cs hhi hld]
          simp
        · have hld0 : isLoSur d = false := by simpa using hld
          have htl : rawWide (d :: cs) = true := by
            rw [hld0] at h
            simpa using h
          obtain ⟨x, hx, hxge⟩ := escapeStr_wide (d :: cs) htl
          refine ⟨x, ?_, hxge⟩
          rw [escapeStr_hi_notlo c d cs hhi hld0]
          exact List.mem_append.mpr (Or.inr hx)
      · have hhi0 : isHiSur c = false := by simpa using hhi
        rw [if_neg (by simp [hhi0])] at h
        rcases Bool.or_eq_true_iff.mp h with hh | htl
        · have hpc : isLoSur c = false ∧ 256 ≤ c := by simpa using hh
          refine ⟨c, ?_, hpc.2⟩
          rw [escapeStr_cons_plain c (d :: cs) hhi0 hpc.1, escapeChar_big c hpc.2]
          simp
        · obtain ⟨x, hx, hxge⟩ := escapeStr_wide (d :: cs) htl
          by_cases hlo : isLoSur c = true
          · refine ⟨x, ?_, hxge⟩
            rw [escapeStr_lo c (d :: cs) hhi0 hlo]
            exact List.mem_append.mpr (Or.inr hx)
          · have hlo0 : isLoSur c = false := by simpa using hlo
            refine ⟨x, ?_, hxge⟩
            rw [escapeStr_cons_plain c (d :: cs) hhi0 hlo0]
            exact List.mem_append.mpr (Or.inr hx)

theorem jsonOfPayload_safe (p : TokenPayload) (he : rawWide p.email = false) :
    ∀ x ∈ jsonOfPayload p, x < 256 := by
  intro x hx
  unfold jsonOfPayload at hx
  simp only [List.append_assoc, List.mem_append] at hx
  rcases hx with h | h | h | h | h | h | h
  · exact (by decide : ∀ y ∈ jstr "\x7b\"userId\":", y < 256) x h
  · exact intCodes_lt256 p.userId x h
  · exact (by decide : ∀ y ∈ jstr ",\"email\":\"", y < 256) x h
  · exact escapeStr_safe p.email he x h
  · exact (by decide : ∀ y ∈ jstr "\",\"exp\":", y < 256) x h
  · exact intCodes_lt256 p.exp x h
  · exact (by decide : ∀ y ∈ jstr "\x7d", y < 256) x h

theorem encodeToken_of_notWide (p : TokenPayload) (h : rawWide p.email = false) :
    encodeToken p = some (b64encode (jsonOfPayload p)) := by
  unfold encodeToken btoaJS
  rw [if_pos]
  rw [List.all_eq_true]
  intro x hx
  simpa using jsonOfPayload_safe p h x hx

theorem encodeToken_none_of_wide (p : TokenPayload) (h : rawWide p.email = true) :
    encodeToken p = none := by
  unfold encodeToken btoaJS
  rw [if_neg]
  intro hall
  rw [List.all_eq_true] at hall
  obtain ⟨x, hx, hge⟩ := escapeStr_wide p.email h
  have hmem : x ∈ jsonOfPayload p := by
    unfold jsonOfPayload
    simp only [List.append_assoc, List.mem_append]
    exact Or.inr (Or.inr (Or.inr (Or.inl hx)))
  have hlt := hall x hmem
  simp at hlt
  omega

theorem loginAPI_find_none (c : Credentials) (store : List StoredUser) (now : Int)
    (h : store.find? (fun u => u.email == c.email && u.password == c.password) = none) :
    loginAPI c store now = some (.failure (jstr "Invalid email or password")) := by
  unfold loginAPI
  rw [h]

theorem loginAPI_find_some (c : Credentials) (store : List StoredUser) (now : Int)
    (u : StoredUser)
    (h : store.find? (fun w => w.email == c.email && w.password == c.password) = some u) :
    loginAPI c store now =
      (match encodeToken ⟨u.id, u.email, now + 86400000⟩ with
       | none => none
       | some t => some (.success (jstr "Login successful") t (withoutPassword u))) := by
  unfold loginAPI
  rw [h]

/-! ## Helper lemmas: the grammar checker against the parser -/

theorem gWsChar_eq (c : Nat) : gWsChar c = isWsJson c := by
  by_cases h32 : c = 32 <;> by_cases h9 : c = 9 <;> by_cases h10 : c = 10 <;>
    by_cases h13 : c = 13 <;> simp [gWsChar, isWsJson, h32, h9, h10, h13]

theorem gWs_eq : ∀ (r : List Nat), gWs r = skipWs r
  | [] => rfl
  | c :: cs => by
      rw [gWs.eq_def, skipWs.eq_def]
      simp only [gWsChar_eq]
      by_cases h : isWsJson c = true
      · rw [if_pos h, if_pos h, gWs_eq cs]
      · rw [if_neg h, if_neg h]

theorem gHex_eq (c : Nat) : gHex c = (hexVal c).isSome := by
  unfold gHex hexVal
  split_ifs with h1 h2 h3 <;> simp <;> omega

theorem gEscChar_eq (e : Nat) : gEscChar e = (jsonEscChar e).isSome := by
  unfold gEscChar jsonEscChar
  split_ifs with h1 h2 h3 h4 h5 h6 h7 h8 <;> simp_all

theorem gChars_eq_aux : ∀ (n : Nat) (r : List Nat), r.length ≤ n →
    gChars r = (jsonStrBody r).map Prod.snd
  | _, [], _ => by
      rw [gChars.eq_def, jsonStrBody.eq_def]
      simp
  | 0, c :: cs, h => by simp at h
  | n + 1, c :: cs, h => by
      have hlen : cs.length ≤ n := by simp at h; omega
      by_cases h34 : c = 34
      · rw [gChars.eq_def, jsonStrBody.eq_def]
        simp [h34]
      · by_cases h92 : c = 92
        · subst h92
          cases cs with
          | nil =>
              rw [gChars.eq_def, jsonStrBody.eq_def]
              simp
          | cons e cs2 =>
              have hlen2 : cs2.length ≤ n := by simp at h; omega
              by_cases h117 : e = 117
              · subst h117
                rcases cs2 with _ | ⟨h1, _ | ⟨h2, _ | ⟨h3, _ | ⟨h4, cs3⟩⟩⟩⟩
                · rw [gChars.eq_def, jsonStrBody.eq_def]; simp
                · rw [gChars.eq_def, jsonStrBody.eq_def]; simp
                · rw [gChars.eq_def, jsonStrBody.eq_def]; simp
                · rw [gChars.eq_def, jsonStrBody.eq_def]; simp
                · have hlen3 : cs3.length ≤ n := by simp at h; omega
                  have e1 : gChars (92 :: 117 :: h1 :: h2 :: h3 :: h4 :: cs3) =
                      (if gHex h1 && gHex h2 && gHex h3 && gHex h4 then gChars cs3
                       else none) := by
                    rw [gChars.eq_def]
                    simp
                  rw [e1]
                  cases hx1 : hexVal h1 with
                  | none =>
                      rw [jsonStrBody.eq_def]
                      simp [gHex_eq, hx1]
                  | some d1 =>
                      cases hx2 : hexVal h2 with
                      | none =>
                          rw [jsonStrBody.eq_def]
                          simp [gHex_eq, hx1, hx2]
                      | some d2 =>
                          cases hx3 : hexVal h3 with
                          | none =>
                              rw [jsonStrBody.eq_def]
                              simp [gHex_eq, hx1, hx2, hx3]
                          | some d3 =>
                              cases hx4 : hexVal h4 with
                              | none =>
                                  rw [jsonStrBody.eq_def]
                                  simp [gHex_eq, hx1, hx2, hx3, hx4]
                              | some d4 =>
                                  rw [jsonStrBody_u h1 h2 h3 h4 d1 d2 d3 d4 cs3
                                    hx1 hx2 hx3 hx4]
                                  rw [gChars_eq_aux n cs3 hlen3]
                                  have hg : (gHex h1 && gHex h2 && gHex h3 && gHex h4) =
                                      true := by
                                    simp [gHex_eq, hx1, hx2, hx3, hx4]
                                  rw [if_pos hg]
                                  cases hb : jsonStrBody cs3 with
                                  | none => simp
                                  | some pr => simp
              · have e1 : gChars (92 :: e :: cs2) =
                    (if gEscChar e then gChars cs2 else none) := by
                  rw [gChars.eq_def]
                  simp [h117]
                rw [e1]
                cases hesc : jsonEscChar e with
                | none =>
                    rw [jsonStrBody.eq_def]
                    simp [gEscChar_eq, hesc, h117]
                | some rr =>
                    rw [jsonStrBody_esc e rr cs2 h117 hesc]
                    have hg : gEscChar e = true := by simp [gEscChar_eq, hesc]
                    rw [if_pos hg, gChars_eq_aux n cs2 hlen2]
                    cases hb : jsonStrBody cs2 with
                    | none => simp
                    | some pr => simp
        · by_cases h32 : 32 ≤ c
          · have e1 : gChars (c :: cs) = gChars cs := by
              rw [gChars.eq_def]
              simp [h34, h92, h32]
            rw [e1, jsonStrBody_plain c cs h34 h92 h32, gChars_eq_aux n cs hlen]
            cases hb : jsonStrBody cs with
            | none => simp
            | some pr => simp
          · rw [gChars.eq_def, jsonStrBody.eq_def]
            simp [h34, h92, h32]

theorem gChars_eq (r : List Nat) : gChars r = (jsonStrBody r).map Prod.snd :=
  gChars_eq_aux r.length r (Nat.le_refl _)

theorem digitsList_cons_digit (c : Nat) (cs : List Nat) (h : isDigitCode c = true) :
    digitsList (c :: cs) = (c :: (digitsList cs).1, (digitsList cs).2) := by
  rw [digitsList.eq_def]
  simp [h]

theorem digitsList_cons_nondigit (c : Nat) (cs : List Nat) (h : isDigitCode c = false) :
    digitsList (c :: cs) = ([], c :: cs) := by
  rw [digitsList.eq_def]
  simp [h]

theorem gDigitsMore_eq : ∀ (r : List Nat), gDigitsMore r = (digitsList r).2
  | [] => rfl
  | c :: cs => by
      by_cases h : isDigitCode c = true
      · have e1 : gDigitsMore (c :: cs) = gDigitsMore cs := by
          rw [gDigitsMore.eq_def]
          simp [h]
        rw [e1, digitsList_cons_digit c cs h, gDigitsMore_eq cs]
      · have h0 : isDigitCode c = false := by simpa using h
        rw [digitsList_cons_nondigit c cs h0, gDigitsMore.eq_def]
        simp [h0]

theorem gDigits_eq (r : List Nat) :
    gDigits r = (if (digitsList r).1 = [] then none else some (digitsList r).2) := by
  cases r with
  | nil =>
      rw [gDigits.eq_def, digitsList.eq_def]
      simp
  | cons c cs =>
      by_cases h : isDigitCode c = true
      · rw [digitsList_cons_digit c cs h]
        have e1 : gDigits (c :: cs) = some (gDigitsMore cs) := by
          rw [gDigits.eq_def]
          simp [h]
        rw [e1, gDigitsMore_eq cs]
        simp
      · have h0 : isDigitCode c = false := by simpa using h
        rw [digitsList_cons_nondigit c cs h0, gDigits.eq_def]
        simp [h0]

theorem gDigits_expDigits (m e10 : Int) (neg : Bool) (r : List Nat) :
    gDigits r = (jsonNumExpDigits m e10 neg r).map Prod.snd := by
  rw [gDigits_eq]
  unfold jsonNumExpDigits
  cases hd : digitsList r with
  | mk ds r2 =>
      cases ds with
      | nil => simp
      | cons d ds2 => simp

theorem gExponent_eq (m e10 : Int) (r : List Nat) :
    gExponent r = (jsonNumExp m e10 r).map Prod.snd := by
  cases r with
  | nil =>
      unfold gExponent jsonNumExp
      simp
  | cons e cs =>
      by_cases hE : e = 101 ∨ e = 69
      · rcases hE with rfl | rfl <;>
        · cases cs with
          | nil => simp [gExponent, jsonNumExp, gSign, ← gDigits_expDigits]
          | cons c2 cs2 =>
              by_cases h43 : c2 = 43
              · subst h43
                simp [gExponent, jsonNumExp, gSign, ← gDigits_expDigits]
              · by_cases h45 : c2 = 45
                · subst h45
                  simp [gExponent, jsonNumExp, gSign, ← gDigits_expDigits]
                · simp [gExponent, jsonNumExp, gSign, h43, h45, ← gDigits_expDigits]
      · have h101 : ¬e = 101 := fun hq => hE (Or.inl hq)
        have h69 : ¬e = 69 := fun hq => hE (Or.inr hq)
        simp [gExponent, jsonNumExp, h101, h69]

theorem gFracExp_eq (ip : Nat) (r : List Nat) :
    (gFraction r).bind gExponent = (jsonNumTail ip r).map Prod.snd := by
  cases r with
  | nil =>
      have e1 : (gFraction []).bind gExponent = gExponent [] := by simp [gFraction]
      have e2 : jsonNumTail ip [] = jsonNumExp (ip : Int) 0 [] := by simp [jsonNumTail]
      rw [e1, e2]
      exact gExponent_eq (ip : Int) 0 []
  | cons c cs =>
      by_cases h46 : c = 46
      · subst h46
        have e1 : gFraction (46 :: cs) = gDigits cs := by simp [gFraction]
        rw [e1, gDigits_eq]
        cases hd : digitsList cs with
        | mk ds r2 =>
            cases ds with
            | nil =>
                have e2 : jsonNumTail ip (46 :: cs) = none := by simp [jsonNumTail, hd]
                rw [e2]
                simp
            | cons d ds2 =>
                have e2 : jsonNumTail ip (46 :: cs) =
                    jsonNumExp
                      ((ip * 10 ^ (d :: ds2).length + digitsVal 0 (d :: ds2) : Nat) : Int)
                      (-(((d :: ds2) : List Nat).length : Int)) r2 := by
                  simp [jsonNumTail, hd]
                rw [e2, if_neg (by simp)]
                simp only [Option.some_bind]
                exact gExponent_eq _ _ r2
      · have e1 : gFraction (c :: cs) = some (c :: cs) := by simp [gFraction, h46]
        have e2 : jsonNumTail ip (c :: cs) = jsonNumExp (ip : Int) 0 (c :: cs) := by
          simp [jsonNumTail, h46]
        rw [e1, e2]
        simp only [Option.some_bind]
        exact gExponent_eq (ip : Int) 0 (c :: cs)

theorem gIntMag_eq (r : List Nat) :
    (gIntegerBody r).bind (fun r1 => (gFraction r1).bind gExponent) =
      (jsonNumMag r).map Prod.snd := by
  cases r with
  | nil => simp [gIntegerBody, jsonNumMag]
  | cons c cs =>
      by_cases h48 : c = 48
      · subst h48
        have e1 : gIntegerBody (48 :: cs) = some cs := by simp [gIntegerBody]
        have e2 : jsonNumMag (48 :: cs) = jsonNumTail 0 cs := by simp [jsonNumMag]
        rw [e1, e2]
        simp only [Option.some_bind]
        exact gFracExp_eq 0 cs
      · by_cases hdg : isDigitCode c = true
        · have e1 : gIntegerBody (c :: cs) = some (gDigitsMore cs) := by
            simp [gIntegerBody, h48, hdg]
          rw [e1]
          simp only [Option.some_bind]
          rw [gDigitsMore_eq]
          cases hd : digitsList cs with
          | mk ds r2 =>
              have e2 : jsonNumMag (c :: cs) =
                  jsonNumTail (digitsVal (c - 48) ds) r2 := by
                simp [jsonNumMag, h48, hdg, hd]
              rw [e2]
              exact gFracExp_eq _ r2
        · have hd0 : isDigitCode c = false := by simpa using hdg
          simp [gIntegerBody, jsonNumMag, h48, hd0]

theorem gNumber_eq (r : List Nat) : gNumber r = (jsonNumber r).map Prod.snd := by
  cases r with
  | nil => simp [gNumber, gInteger, jsonNumber]
  | cons c cs =>
      by_cases h45 : c = 45
      · subst h45
        have e1 : gNumber (45 :: cs) =
            (gIntegerBody cs).bind (fun r1 => (gFraction r1).bind gExponent) := by
          simp [gNumber, gInteger]
        have e2 : jsonNumber (45 :: cs) =
            (jsonNumMag cs).map (fun pr => (-pr.1, pr.2)) := by
          simp [jsonNumber]
        rw [e1, e2, gIntMag_eq cs]
        cases hm : jsonNumMag cs with
        | none => simp
        | some pr => simp
      · have e1 : gNumber (c :: cs) =
            (gIntegerBody (c :: cs)).bind (fun r1 => (gFraction r1).bind gExponent) := by
          simp [gNumber, gInteger, h45]
        have e2 : jsonNumber (c :: cs) = jsonNumMag (c :: cs) := by
          simp [jsonNumber, h45]
        rw [e1, e2]
        exact gIntMag_eq (c :: cs)

theorem gRec_elem_eq (fuel : Nat) (r : List Nat) :
    gRec (fuel + 1) GMode.elem r =
      (match gWs r with
       | [] => none
       | c :: cs =>
           if c = 34 then (gChars cs).map gWs
           else if c = 123 then (gRec fuel (GMode.mems true) cs).map gWs
           else if c = 91 then (gRec fuel (GMode.elems true) cs).map gWs
           else if c = 116 then (expectLit (jstr "rue") cs).map gWs
           else if c = 102 then (expectLit (jstr "alse") cs).map gWs
           else if c = 110 then (expectLit (jstr "ull") cs).map gWs
           else (gNumber (c :: cs)).map gWs) := by
  rw [gRec.eq_def]

theorem gRec_mems_eq (fuel : Nat) (first : Bool) (r : List Nat) :
    gRec (fuel + 1) (GMode.mems first) r =
      (match gWs r with
       | [] => none
       | c :: cs =>
           if c = 125 then (if first then some cs else none)
           else if c = 34 then
             match gChars cs with
             | none => none
             | some r2 =>
                 match gWs r2 with
                 | [] => none
                 | c2 :: cs2 =>
                     if c2 = 58 then
                       match gRec fuel GMode.elem cs2 with
                       | none => none
                       | some r3 =>
                           match r3 with
                           | c3 :: cs3 =>
                               if c3 = 44 then gRec fuel (GMode.mems false) cs3
                               else if c3 = 125 then some cs3
                               else none
                           | [] => none
                     else none
           else none) := by
  rw [gRec.eq_def]

theorem gRec_elems_eq (fuel : Nat) (first : Bool) (r : List Nat) :
    gRec (fuel + 1) (GMode.elems first) r =
      (match gWs r with
       | [] => none
       | c :: cs =>
           if c = 93 then (if first then some cs else none)
           else
             match gRec fuel GMode.elem (c :: cs) with
             | none => none
             | some r2 =>
                 match r2 with
                 | c2 :: cs2 =>
                     if c2 = 44 then gRec fuel (GMode.elems false) cs2
                     else if c2 = 93 then some cs2
                     else none
                 | [] => none) := by
  rw [gRec.eq_def]

theorem jsonRec_val_eq (fuel : Nat) (r : List Nat) :
    jsonRec (fuel + 1) JMode.val r =
      (match r with
       | [] => none
       | c :: cs =>
           if c = 34 then
             (jsonStrBody cs).map (fun pr => (JOut.v (JsonValue.str pr.1), pr.2))
           else if c = 123 then
             match jsonRec fuel (JMode.mems true) cs with
             | some (JOut.ms l, r2) => some (JOut.v (JsonValue.obj l), r2)
             | _ => none
           else if c = 91 then
             match jsonRec fuel (JMode.elems true) cs with
             | some (JOut.es l, r2) => some (JOut.v (JsonValue.arr l), r2)
             | _ => none
           else if c = 116 then
             (expectLit (jstr "rue") cs).map (fun r2 => (JOut.v (JsonValue.bool true), r2))
           else if c = 102 then
             (expectLit (jstr "alse") cs).map
               (fun r2 => (JOut.v (JsonValue.bool false), r2))
           else if c = 110 then
             (expectLit (jstr "ull") cs).map (fun r2 => (JOut.v JsonValue.null, r2))
           else (jsonNumber (c :: cs)).map
             (fun pr => (JOut.v (JsonValue.num pr.1), pr.2))) := by
  rw [jsonRec.eq_def]

theorem jsonRec_mems_eq (fuel : Nat) (first : Bool) (r : List Nat) :
    jsonRec (fuel + 1) (JMode.mems first) r =
      (match skipWs r with
       | [] => none
       | c :: cs =>
           if c = 125 then (if first then some (JOut.ms [], cs) else none)
           else if c = 34 then
             match jsonStrBody cs with
             | none => none
             | some (k, r2) =>
                 match skipWs r2 with
                 | [] => none
                 | c2 :: cs2 =>
                     if c2 = 58 then
                       match jsonRec fuel JMode.val (skipWs cs2) with
                       | some (JOut.v v, r3) =>
                           match skipWs r3 with
                           | [] => none
                           | c3 :: cs3 =>
                               if c3 = 44 then
                                 match jsonRec fuel (JMode.mems false) cs3 with
                                 | some (JOut.ms l, r4) => some (JOut.ms ((k, v) :: l), r4)
                                 | _ => none
                               else if c3 = 125 then some (JOut.ms [(k, v)], cs3)
                               else none
                       | _ => none
                     else none
           else none) := by
  rw [jsonRec.eq_def]

theorem jsonRec_elems_eq (fuel : Nat) (first : Bool) (r : List Nat) :
    jsonRec (fuel + 1) (JMode.elems first) r =
      (match skipWs r with
       | [] => none
       | c :: cs =>
           if c = 93 then (if first then some (JOut.es [], cs) else none)
           else
             match jsonRec fuel JMode.val (c :: cs) with
             | some (JOut.v v, r2) =>
                 match skipWs r2 with
                 | [] => none
                 | c2 :: cs2 =>
                     if c2 = 44 then
                       match jsonRec fuel (JMode.elems false) cs2 with
                       | some (JOut.es l, r3) => some (JOut.es (v :: l), r3)
                       | _ => none
                     else if c2 = 93 then some (JOut.es [v], cs2)
                     else none
             | _ => none) := by
  rw [jsonRec.eq_def]

theorem gRec_eq : ∀ (fuel : Nat),
    (∀ r, gRec fuel GMode.elem r =
      (match jsonRec fuel JMode.val (skipWs r) with
       | some (JOut.v _, r2) => some (skipWs r2)
       | _ => none)) ∧
    (∀ b r, gRec fuel (GMode.mems b) r =
      (match jsonRec fuel (JMode.mems b) r with
       | some (JOut.ms _, r2) => some r2
       | _ => none)) ∧
    (∀ b r, gRec fuel (GMode.elems b) r =
      (match jsonRec fuel (JMode.elems b) r with
       | some (JOut.es _, r2) => some r2
       | _ => none))
  | 0 => ⟨fun _ => rfl, fun _ _ => rfl, fun _ _ => rfl⟩
  | fuel + 1 => by
      obtain ⟨IH1, IH2, IH3⟩ := gRec_eq fuel
      refine ⟨fun r => ?_, fun b r => ?_, fun b r => ?_⟩
      · rw [gRec_elem_eq, jsonRec_val_eq, gWs_eq]
        cases hr : skipWs r with
        | nil => rfl
        | cons c cs =>
            by_cases h34 : c = 34
            · subst h34
              cases hb : jsonStrBody cs with
              | none => simp [gChars_eq, hb]
              | some pr => simp [gChars_eq, hb, gWs_eq]
            · by_cases h123 : c = 123
              · subst h123
                cases hj : jsonRec fuel (JMode.mems true) cs with
                | none => simp [IH2, hj]
                | some pr =>
                    obtain ⟨o, r2⟩ := pr
                    cases o with
                    | v x => simp [IH2, hj]
                    | ms l => simp [IH2, hj, gWs_eq]
                    | es l => simp [IH2, hj]
              · by_cases h91 : c = 91
                · subst h91
                  cases hj : jsonRec fuel (JMode.elems true) cs with
                  | none => simp [IH3, hj]
                  | some pr =>
                      obtain ⟨o, r2⟩ := pr
                      cases o with
                      | v x => simp [IH3, hj]
                      | ms l => simp [IH3, hj]
                      | es l => simp [IH3, hj, gWs_eq]
                · by_cases h116 : c = 116
                  · subst h116
                    cases he : expectLit (jstr "rue") cs with
                    | none => simp [he]
                    | some r2 => simp [he, gWs_eq]
                  · by_cases h102 : c = 102
                    · subst h102
                      cases he : expectLit (jstr "alse") cs with
                      | none => simp [he]
                      | some r2 => simp [he, gWs_eq]
                    · by_cases h110 : c = 110
                      · subst h110
                        cases he : expectLit (jstr "ull") cs with
                        | none => simp [he]
                        | some r2 => simp [he, gWs_eq]
                      · cases hn : jsonNumber (c :: cs) with
                        | none =>
                            simp [h34, h123, h91, h116, h102, h110, gNumber_eq, hn]
                        | some pr =>
                            simp [h34, h123, h91, h116, h102, h110, gNumber_eq, hn,
                              gWs_eq]
      · rw [gRec_mems_eq, jsonRec_mems_eq, gWs_eq]
        cases hr : skipWs r with
        | nil => rfl
        | cons c cs =>
            by_cases h125 : c = 125
            · subst h125
              cases b <;> simp
            · by_cases h34 : c = 34
              · subst h34
                cases hb : jsonStrBody cs with
                | none => simp [gChars_eq, hb]
                | some pr =>
                    obtain ⟨k, r2⟩ := pr
                    cases hr2 : skipWs r2 with
                    | nil => simp [gChars_eq, hb, gWs_eq, hr2]
                    | cons c2 cs2 =>
                        by_cases h58 : c2 = 58
                        · subst h58
                          cases hj : jsonRec fuel JMode.val (skipWs cs2) with
                          | none => simp [gChars_eq, hb, gWs_eq, hr2, IH1, hj]
                          | some pr2 =>
                              obtain ⟨o, r3⟩ := pr2
                              cases o with
                              | ms l => simp [gChars_eq, hb, gWs_eq, hr2, IH1, hj]
                              | es l => simp [gChars_eq, hb, gWs_eq, hr2, IH1, hj]
                              | v v =>
                                  cases hr3 : skipWs r3 with
                                  | nil =>
                                      simp [gChars_eq, hb, gWs_eq, hr2, IH1, hj, hr3]
                                  | cons c3 cs3 =>
                                      by_cases h44 : c3 = 44
                                      · subst h44
                                        cases hj2 : jsonRec fuel (JMode.mems false) cs3
                                          with
                                        | none =>
                                            simp [gChars_eq, hb, gWs_eq, hr2, IH1, hj,
                                              hr3, IH2, hj2]
                                        | some pr3 =>
                                            obtain ⟨o2, r4⟩ := pr3
                                            cases o2 <;>
                                              simp [gChars_eq, hb, gWs_eq, hr2, IH1,
                                                hj, hr3, IH2, hj2]
                                      · by_cases h125b : c3 = 125
                                        · subst h125b
                                          simp [gChars_eq, hb, gWs_eq, hr2, IH1, hj,
                                            hr3]
                                        · simp [gChars_eq, hb, gWs_eq, hr2, IH1, hj,
                                            hr3, h44, h125b]
                        · simp [gChars_eq, hb, gWs_eq, hr2, h58]
              · simp [h125, h34]
      · rw [gRec_elems_eq, jsonRec_elems_eq, gWs_eq]
        cases hr : skipWs r with
        | nil => rfl
        | cons c cs =>
            have hcws : isWsJson c = false := skipWs_head r c cs hr
            have hsk : skipWs (c :: cs) = c :: cs := skipWs_cons_nows c cs hcws
            by_cases h93 : c = 93
            · subst h93
              cases b <;> simp
            · cases hj : jsonRec fuel JMode.val (c :: cs) with
              | none => simp [IH1, hsk, hj, h93]
              | some pr =>
                  obtain ⟨o, r2⟩ := pr
                  cases o with
                  | ms l => simp [IH1, hsk, hj, h93]
                  | es l => simp [IH1, hsk, hj, h93]
                  | v v =>
                      cases hr2 : skipWs r2 with
                      | nil => simp [IH1, hsk, hj, h93, hr2]
                      | cons c2 cs2 =>
                          by_cases h44 : c2 = 44
                          · subst h44
                            cases hj2 : jsonRec fuel (JMode.elems false) cs2 with
                            | none => simp [IH1, IH3, hsk, hj, h93, hr2, hj2]
                            | some pr2 =>
                                obtain ⟨o2, r3⟩ := pr2
                                cases o2 <;> simp [IH1, IH3, hsk, hj, h93, hr2, hj2]
                          · by_cases h93b : c2 = 93
                            · subst h93b
                              simp [IH1, hsk, hj, h93, hr2]
                            · simp [IH1, hsk, hj, h93, hr2, h44, h93b]

theorem jsonTextOk_eq (j : List Nat) : jsonTextOk j = (jsonParse j).isSome := by
  unfold jsonTextOk jsonParse
  rw [(gRec_eq (2 * j.length + 2)).1 j]
  cases hj : jsonRec (2 * j.length + 2) JMode.val (skipWs j) with
  | none => rfl
  | some pr =>
      obtain ⟨o, r2⟩ := pr
      cases o with
      | v x =>
          cases hr2 : skipWs r2 with
          | nil => simp [hr2]
          | cons c cs => simp [hr2]
      | ms l => rfl
      | es l => rfl

/-! ## Claim theorems -/

/-- Claim C1, counterexample: the claim as stated is false.  From the
initial session, calling login with a user but a null token is a valid
call sequence, and it leaves isAuthenticated true while token is null,
so the stored flag disagrees with the conjunction of presence tests. -/
theorem claim_C1_counterexample :
    ¬(∀ s : SessionState, ReachableSession s →
        s.isAuthenticated = (s.user.isSome && s.token.isSome)) := by
  intro hall
  have hr : ReachableSession (sessionLogin (some demoPublic) none false initialSession).1 :=
    ReachableSession.login _ _ _ _ ReachableSession.init
  exact absurd (hall _ hr) (by decide)

/-- Claim C1, amended: in every state reachable from the initial session
when each login call passes a present user and a present token (the
discipline every caller in the application follows), the stored
isAuthenticated flag equals the conjunction of user presence and token
presence. -/
theorem claim_C1 : ∀ s : SessionState, GuardedReachable s →
    s.isAuthenticated = (s.user.isSome && s.token.isSome) := by
  intro s h
  induction h with
  | init => rfl
  | login u t r s2 _ _ => rfl
  | logout s2 _ _ => rfl
  | update upd s2 _ ih =>
      unfold sessionUpdateUser
      cases hu : s2.user with
      | none => exact ih
      | some u =>
          show s2.isAuthenticated = (true && s2.token.isSome)
          rw [ih, hu]
          rfl
  | verify now s2 _ ih =>
      rcases sessionVerifyToken_state now s2 with he | he
      · rw [he]
        exact ih
      · rw [he]
        rfl
  | restore s2 _ ih => exact ih

/-- Claim C1, witness: the invariant holds at the state reached by a
disciplined login from the initial session. -/
theorem claim_C1_witness :
    (sessionLogin (some demoPublic) (some (demoToken 0)) false initialSession).1.isAuthenticated
      = ((sessionLogin (some demoPublic) (some (demoToken 0)) false
          initialSession).1.user.isSome &&
        (sessionLogin (some demoPublic) (some (demoToken 0)) false
          initialSession).1.token.isSome) :=
  claim_C1 _ (GuardedReachable.login _ _ _ _ GuardedReachable.init)

/-- Claim C10, counterexample: the claim as stated is false.  Calling
login with a null user throws a TypeError at the log line reading
userData.username, so the call does not return true. -/
theorem claim_C10_counterexample :
    (sessionLogin none (some (jstr "t")) false initialSession).2 = none ∧
    ¬(sessionLogin none (some (jstr "t")) false initialSession).2 = some true := by
  decide

/-- Claim C10, amended: sessionManager.login stores both arguments
verbatim and sets isAuthenticated to true unconditionally for every
input, and rememberMe has no effect; the call returns true whenever the
user argument is present, and raises (after mutating the state) when it
is null. -/
theorem claim_C10 : ∀ (ud : Option PublicUser) (tok : Option (List Nat))
    (r : Bool) (s : SessionState),
    (sessionLogin ud tok r s).1 = ⟨ud, tok, true⟩ ∧
    (∀ u, ud = some u → (sessionLogin ud tok r s).2 = some true) ∧
    (ud = none → (sessionLogin ud tok r s).2 = none) ∧
    sessionLogin ud tok r s = sessionLogin ud tok (!r) s := by
  intro ud tok r s
  refine ⟨?_, ?_, ?_, rfl⟩
  · cases ud <;> rfl
  · intro u hu
    subst hu
    rfl
  · intro hu
    subst hu
    rfl

/-- Claim C10, witness: a login with a present user stores the
arguments, returns true, and ignores rememberMe. -/
theorem claim_C10_witness :
    (sessionLogin (some demoPublic) (some (jstr "t")) false initialSession).1 =
      ⟨some demoPublic, some (jstr "t"), true⟩ ∧
    (sessionLogin (some demoPublic) (some (jstr "t")) false initialSession).2 = some true := by
  obtain ⟨h1, h2, _, _⟩ :=
    claim_C10 (some demoPublic) (some (jstr "t")) false initialSession
  exact ⟨h1, h2 demoPublic rfl⟩

/-- Claim C6: sessionManager.verifyToken logs the caller out and returns
false when the stored token decodes to an expired payload, returns true
and leaves the state unchanged when it decodes to an unexpired payload,
and returns false leaving the state unchanged when there is no token. -/
theorem claim_C6 : ∀ (now : Int) (s : SessionState),
    (s.token = none → sessionVerifyToken now s = (s, false)) ∧
    (∀ t p, s.token = some t → decodeToken t = some p → p.exp < now →
      sessionVerifyToken now s = (⟨none, none, false⟩, false)) ∧
    (∀ t p, s.token = some t → decodeToken t = some p → ¬p.exp < now →
      sessionVerifyToken now s = (s, true)) := by
  intro now s
  refine ⟨?_, ?_, ?_⟩
  · intro h
    unfold sessionVerifyToken
    rw [if_pos (by rw [h]; rfl)]
  · intro t p ht hp hexp
    have htne : ¬t = [] := by
      intro hnil
      rw [hnil, decodeToken_nil] at hp
      exact Option.noConfusion hp
    unfold sessionVerifyToken
    rw [if_neg (by rw [ht]; simpa [jsTokenAbsent] using htne), ht]
    show (match decodeToken t with
      | none => (s, false)
      | some p => if p.exp < now then ((sessionLogout s).1, false) else (s, true)) = _
    rw [hp]
    show (if p.exp < now then ((sessionLogout s).1, false) else (s, true)) = _
    rw [if_pos hexp]
    rfl
  · intro t p ht hp hexp
    have htne : ¬t = [] := by
      intro hnil
      rw [hnil, decodeToken_nil] at hp
      exact Option.noConfusion hp
    unfold sessionVerifyToken
    rw [if_neg (by rw [ht]; simpa [jsTokenAbsent] using htne), ht]
    show (match decodeToken t with
      | none => (s, false)
      | some p => if p.exp < now then ((sessionLogout s).1, false) else (s, true)) = _
    rw [hp]
    show (if p.exp < now then ((sessionLogout s).1, false) else (s, true)) = _
    rw [if_neg hexp]

/-- Claim C6, witness: with an expired token the session is cleared and
false returned; with a live token the state is kept and true returned;
with no token nothing changes. -/
theorem claim_C6_witness :
    sessionVerifyToken 2000 ⟨some demoPublic, some (demoToken 1000), true⟩ =
      (⟨none, none, false⟩, false) ∧
    sessionVerifyToken 500 ⟨some demoPublic, some (demoToken 1000), true⟩ =
      (⟨some demoPublic, some (demoToken 1000), true⟩, true) ∧
    sessionVerifyToken 2000 initialSession = (initialSession, false) := by
  refine ⟨?_, ?_, ?_⟩
  · exact (claim_C6 2000 ⟨some demoPublic, some (demoToken 1000), true⟩).2.1
      (demoToken 1000) (demoPayload 1000) rfl (by decide) (by decide)
  · exact (claim_C6 500 ⟨some demoPublic, some (demoToken 1000), true⟩).2.2
      (demoToken 1000) (demoPayload 1000) rfl (by decide) (by decide)
  · exact (claim_C6 2000 initialSession).1 rfl

/-- Claim C7, counterexample: the claim as stated is false.  On a token
that fails to decode, verifyToken catches the error and returns false,
but it leaves the session record untouched, so isAuthenticated still
reports true if it was true before. -/
theorem claim_C7_counterexample :
    decodeToken badToken = none ∧
    (sessionVerifyToken 0 ⟨some demoPublic, some badToken, true⟩).2 = false ∧
    (sessionVerifyToken 0 ⟨some demoPublic, some badToken, true⟩).1.isAuthenticated = true := by
  decide

/-- Claim C7, amended: a decode failure is caught, verifyToken returns
false without raising, and the session state, including its stored
isAuthenticated flag, is left exactly as it was. -/
theorem claim_C7 : ∀ (now : Int) (s : SessionState) (t : List Nat),
    s.token = some t → decodeToken t = none →
    sessionVerifyToken now s = (s, false) := by
  intro now s t ht hd
  unfold sessionVerifyToken
  by_cases habs : jsTokenAbsent s.token = true
  · rw [if_pos habs]
  · rw [if_neg habs, ht]
    show (match decodeToken t with
      | none => (s, false)
      | some p => if p.exp < now then ((sessionLogout s).1, false) else (s, true)) = _
    rw [hd]

/-- Claim C7, witness: an undecodable token makes verifyToken return
false and keeps the state. -/
theorem claim_C7_witness :
    sessionVerifyToken 0 ⟨some demoPublic, some badToken, true⟩ =
      (⟨some demoPublic, some badToken, true⟩, false) :=
  claim_C7 0 ⟨some demoPublic, some badToken, true⟩ badToken rfl (by decide)

/-- Claim C3, counterexample: the claim as stated is false.  The expiry
tests in authAPI.verifyToken and sessionManager.verifyToken are the
strict comparison decoded.exp < Date.now(), so a token whose expiry
equals the current instant is treated as still valid: verify succeeds
and the session verify returns true without logging out. -/
theorem claim_C3_counterexample :
    decodeToken (demoToken 1000) = some (demoPayload 1000) ∧
    (demoPayload 1000).exp = 1000 ∧
    verifyTokenAPI (demoToken 1000) mockUsers 1000 = .success demoPublic ∧
    sessionVerifyToken 1000 ⟨some demoPublic, some (demoToken 1000), true⟩ =
      (⟨some demoPublic, some (demoToken 1000), true⟩, true) := by
  decide

/-- Claim C9: getSessionDuration returns the number of whole minutes
remaining, the floor of the remaining milliseconds over 60000; with no
token it returns 0, and on a token expiring exactly 120000 ms from now
it returns 2. -/
theorem claim_C9 : ∀ (now : Int) (s : SessionState),
    (s.token = none → sessionGetSessionDuration now s = 0) ∧
    (∀ t p, s.token = some t → decodeToken t = some p →
      sessionGetSessionDuration now s = Int.fdiv (p.exp - now) 60000) ∧
    (∀ t p, s.token = some t → decodeToken t = some p → p.exp = now + 120000 →
      sessionGetSessionDuration now s = 2) := by
  intro now s
  have core : ∀ t p, s.token = some t → decodeToken t = some p →
      sessionGetSessionDuration now s = Int.fdiv (p.exp - now) 60000 := by
    intro t p ht hp
    have htne : ¬t = [] := by
      intro hnil
      rw [hnil, decodeToken_nil] at hp
      exact Option.noConfusion hp
    unfold sessionGetSessionDuration
    rw [if_neg (by rw [ht]; simpa [jsTokenAbsent] using htne), ht]
    show (match decodeToken t with
      | none => 0
      | some p => Int.fdiv (p.exp - now) 60000) = _
    rw [hp]
  refine ⟨?_, core, ?_⟩
  · intro h
    unfold sessionGetSessionDuration
    rw [if_pos (by rw [h]; rfl)]
  · intro t p ht hp hexp
    rw [core t p ht hp, hexp]
    have : now + 120000 - now = (120000 : Int) := by omega
    rw [this]
    decide

/-- Claim C9, witness: a token expiring 120000 ms from now gives 2
minutes; an empty session gives 0. -/
theorem claim_C9_witness :
    sessionGetSessionDuration 0 ⟨some demoPublic, some (demoToken 120000), true⟩ = 2 ∧
    sessionGetSessionDuration 0 initialSession = 0 := by
  refine ⟨?_, ?_⟩
  · exact (claim_C9 0 ⟨some demoPublic, some (demoToken 120000), true⟩).2.2
      (demoToken 120000) (demoPayload 120000) rfl (by decide) (by decide)
  · exact (claim_C9 0 initialSession).1 rfl

/-- Claim C4, counterexample: the claim as stated is false.  When the
matched identity has an email with a code unit above 255 (reachable,
since register accepts any email), btoa raises while building the token,
so login neither returns the invalid-credentials failure nor a success
record: the call rejects. -/
theorem claim_C4_counterexample :
    loginAPI ⟨[256], jstr "pw"⟩ [⟨2, jstr "u", [256], jstr "pw", none⟩] 0 = none ∧
    ([⟨2, jstr "u", [256], jstr "pw", none⟩] : List StoredUser).find?
      (fun u => u.email == [256] && u.password == jstr "pw") =
      some ⟨2, jstr "u", [256], jstr "pw", none⟩ := by
  decide

/-- Claim C5: register fails with the duplicate-email message exactly
when some stored identity already has the email, in which case the store
is unchanged; otherwise it appends the new identity, whose id and
creation timestamp are the current instant, and returns it without the
password; registering the same email again afterwards always fails. -/
theorem claim_C5 : ∀ (d : RegisterData) (store : List StoredUser) (now : Int),
    ((registerAPI d store now).1 = .failure (jstr "Email already registered") ↔
      ∃ u ∈ store, u.email = d.email) ∧
    ((∀ u ∈ store, ¬u.email = d.email) →
      registerAPI d store now =
        (.success (jstr "Registration successful") (withoutPassword (registerNewUser d now)),
          store ++ [registerNewUser d now])) ∧
    ((∃ u ∈ store, u.email = d.email) → (registerAPI d store now).2 = store) ∧
    (∀ (d2 : RegisterData) (now2 : Int), d2.email = d.email →
      (registerAPI d2 (registerAPI d store now).2 now2).1 =
        .failure (jstr "Email already registered")) := by
  intro d store now
  cases hf : store.find? (fun u => u.email == d.email) with
  | none =>
      have hres : registerAPI d store now =
          (.success (jstr "Registration successful")
            (withoutPassword (registerNewUser d now)),
            store ++ [registerNewUser d now]) := by
        unfold registerAPI
        rw [hf]
      rw [hres]
      refine ⟨⟨fun h => ?_, fun h => ?_⟩, fun _ => rfl, fun h => ?_, fun d2 now2 he => ?_⟩
      · exact RegisterOutcome.noConfusion h
      · obtain ⟨u, hu, hue⟩ := h
        have := List.find?_eq_none.mp hf u hu
        simp only [beq_iff_eq] at this
        exact absurd hue this
      · obtain ⟨u, hu, hue⟩ := h
        have := List.find?_eq_none.mp hf u hu
        simp only [beq_iff_eq] at this
        exact absurd hue this
      · show (registerAPI d2 (store ++ [registerNewUser d now]) now2).1 = _
        unfold registerAPI
        cases hf2 : (store ++ [registerNewUser d now]).find?
            (fun u => u.email == d2.email) with
        | some u2 => rfl
        | none =>
            have := List.find?_eq_none.mp hf2 (registerNewUser d now)
              (List.mem_append.mpr (Or.inr (by simp)))
            simp only [beq_iff_eq] at this
            exact absurd (show (registerNewUser d now).email = d2.email from he ▸ rfl) this
  | some u0 =>
      have hres : registerAPI d store now =
          (.failure (jstr "Email already registered"), store) := by
        unfold registerAPI
        rw [hf]
      rw [hres]
      have hmem := List.mem_of_find?_eq_some hf
      have hpred : u0.email = d.email := by simpa using List.find?_some hf
      refine ⟨⟨fun _ => ⟨u0, hmem, hpred⟩, fun _ => rfl⟩, fun h => ?_, fun _ => rfl,
        fun d2 now2 he => ?_⟩
      · exact absurd hpred (h u0 hmem)
      · show (registerAPI d2 store now2).1 = _
        unfold registerAPI
        cases hf2 : store.find? (fun u => u.email == d2.email) with
        | some u2 => rfl
        | none =>
            have := List.find?_eq_none.mp hf2 u0 hmem
            simp only [beq_iff_eq] at this
            exact absurd (hpred.trans he.symm) this

/-- Claim C5, witness: registering the seeded demo email fails and keeps
the store; registering a fresh email appends the new identity, and a
second registration of that same email fails. -/
theorem claim_C5_witness :
    (registerAPI ⟨jstr "u", jstr "demo@example.com", jstr "pw"⟩ mockUsers 7).1 =
      .failure (jstr "Email already registered") ∧
    registerAPI ⟨jstr "u", jstr "new@example.com", jstr "pw"⟩ mockUsers 7 =
      (.success (jstr "Registration successful")
        (withoutPassword (registerNewUser ⟨jstr "u", jstr "new@example.com", jstr "pw"⟩ 7)),
        mockUsers ++ [registerNewUser ⟨jstr "u", jstr "new@example.com", jstr "pw"⟩ 7]) ∧
    (registerAPI ⟨jstr "v", jstr "new@example.com", jstr "pw2"⟩
      (registerAPI ⟨jstr "u", jstr "new@example.com", jstr "pw"⟩ mockUsers 7).2 9).1 =
      .failure (jstr "Email already registered") := by
  refine ⟨?_, ?_, ?_⟩
  · exact (claim_C5 ⟨jstr "u", jstr "demo@example.com", jstr "pw"⟩ mockUsers 7).1.mpr
      ⟨⟨1, jstr "demo", jstr "demo@example.com", jstr "demo123", none⟩, by decide, by decide⟩
  · exact (claim_C5 ⟨jstr "u", jstr "new@example.com", jstr "pw"⟩ mockUsers 7).2.1
      (by decide)
  · exact (claim_C5 ⟨jstr "u", jstr "new@example.com", jstr "pw"⟩ mockUsers 7).2.2.2
      ⟨jstr "v", jstr "new@example.com", jstr "pw2"⟩ 9 rfl


/-- Claim C3, counterexample marker is defined earlier; amended claim: a
decodable token is treated as expired exactly when the current time is
strictly greater than its expiry instant, both by authAPI.verifyToken
and by sessionManager.verifyToken; a token whose expiry equals the
current time is treated as valid. -/
theorem claim_C3 : ∀ (tok : List Nat) (p : TokenPayload) (now : Int)
    (store : List StoredUser),
    decodeToken tok = some p →
    ((verifyTokenAPI tok store now = .failure (jstr "Token expired")) ↔ now > p.exp) ∧
    (∀ s : SessionState, s.token = some tok →
      (((sessionVerifyToken now s).2 = false) ↔ now > p.exp)) := by
  intro tok p now store hd
  have htne : ¬tok = [] := by
    intro hnil
    rw [hnil, decodeToken_nil] at hd
    exact Option.noConfusion hd
  have hjd : jsonDecode tok = some (payloadObj p) := jsonDecode_decodeToken tok p hd
  constructor
  · rw [verifyTokenAPI_some tok store now _ hjd]
    simp only [payloadObj_not_null, Bool.false_eq_true, if_false,
      payloadObj_get_exp, jsLtInt_cast]
    by_cases hexp : p.exp < now
    · rw [if_pos (by simpa using hexp)]
      exact ⟨fun _ => hexp, fun _ => rfl⟩
    · rw [if_neg (by simpa using hexp)]
      constructor
      · intro h
        cases hf : mockUsers.find?
            (fun u => jsStrictEqNum u.id (jsGetField (payloadObj p) (jstr "userId"))) with
        | none =>
            rw [show store.find?
                (fun u => jsStrictEqNum u.id (jsGetField (payloadObj p) (jstr "userId"))) =
                store.find?
                (fun u => jsStrictEqNum u.id (jsGetField (payloadObj p) (jstr "userId")))
              from rfl] at h
            cases hf2 : store.find?
                (fun u => jsStrictEqNum u.id (jsGetField (payloadObj p) (jstr "userId"))) with
            | none =>
                rw [hf2] at h
                injection h with hm
                exact absurd hm (by decide)
            | some u =>
                rw [hf2] at h
                exact VerifyOutcome.noConfusion h
        | some u =>
            cases hf2 : store.find?
                (fun u => jsStrictEqNum u.id (jsGetField (payloadObj p) (jstr "userId"))) with
            | none =>
                rw [hf2] at h
                injection h with hm
                exact absurd hm (by decide)
            | some u2 =>
                rw [hf2] at h
                exact VerifyOutcome.noConfusion h
      · intro h
        exact absurd h hexp
  · intro s ht
    unfold sessionVerifyToken
    rw [if_neg (by rw [ht]; simpa [jsTokenAbsent] using htne), ht]
    show ((match decodeToken tok with
      | none => (s, false)
      | some p => if p.exp < now then ((sessionLogout s).1, false) else (s, true)).2
        = false) ↔ now > p.exp
    rw [hd]
    show ((if p.exp < now then ((sessionLogout s).1, false) else (s, true)).2 = false) ↔
      now > p.exp
    by_cases hexp : p.exp < now
    · rw [if_pos hexp]
      exact ⟨fun _ => hexp, fun _ => rfl⟩
    · rw [if_neg hexp]
      exact ⟨fun h => Bool.noConfusion h, fun h => absurd h hexp⟩

/-- Claim C3, witness: one millisecond past the expiry both verifiers
treat the token as expired. -/
theorem claim_C3_witness :
    verifyTokenAPI (demoToken 1000) mockUsers 1001 = .failure (jstr "Token expired") ∧
    (sessionVerifyToken 1001 ⟨some demoPublic, some (demoToken 1000), true⟩).2 = false := by
  obtain ⟨h1, h2⟩ := claim_C3 (demoToken 1000) (demoPayload 1000) 1001 mockUsers (by decide)
  exact ⟨h1.mpr (by decide), (h2 ⟨some demoPublic, some (demoToken 1000), true⟩ rfl).mpr
    (by decide)⟩

/-- Claim C4, amended (the counterexample is stated earlier): login
fails with the invalid-credentials message exactly when no stored
identity matches the email and password exactly; when one matches, it
returns success with a token carrying the matched id, email and an
expiry exactly 24 hours past the current time, and the identity without
its password, provided the well-formed stringify escaping of the email
leaves every unit below 256 (no raw non-surrogate unit above 255 and no
raw surrogate pair); otherwise btoa raises and the call rejects. -/
theorem claim_C4 : ∀ (c : Credentials) (store : List StoredUser) (now : Int),
    (loginAPI c store now = some (.failure (jstr "Invalid email or password")) ↔
      ∀ u ∈ store, (u.email == c.email && u.password == c.password) = false) ∧
    (∀ u, store.find? (fun w => w.email == c.email && w.password == c.password) = some u →
      (rawWide u.email = true → loginAPI c store now = none) ∧
      (rawWide u.email = false →
        loginAPI c store now = some (.success (jstr "Login successful")
          (b64encode (jsonOfPayload ⟨u.id, u.email, now + 86400000⟩))
          (withoutPassword u)) ∧
        jsonDecode (b64encode (jsonOfPayload ⟨u.id, u.email, now + 86400000⟩)) =
          some (payloadObj ⟨u.id, u.email, now + 86400000⟩))) := by
  intro c store now
  refine ⟨?_, ?_⟩
  · cases hf : store.find? (fun w => w.email == c.email && w.password == c.password) with
    | none =>
        rw [loginAPI_find_none c store now hf]
        refine ⟨fun _ u hu => ?_, fun _ => rfl⟩
        simpa using List.find?_eq_none.mp hf u hu
    | some u =>
        rw [loginAPI_find_some c store now u hf]
        refine ⟨fun h => ?_, fun hall => ?_⟩
        · cases he : encodeToken ⟨u.id, u.email, now + 86400000⟩ with
          | none =>
              rw [he] at h
              exact Option.noConfusion h
          | some t =>
              rw [he] at h
              injection h with h2
              exact LoginOutcome.noConfusion h2
        · have hp := List.find?_some hf
          have hmem := List.mem_of_find?_eq_some hf
          rw [hall u hmem] at hp
          exact Bool.noConfusion hp
  · intro u hf
    rw [loginAPI_find_some c store now u hf]
    refine ⟨fun hw => ?_, fun hnw => ?_⟩
    · rw [encodeToken_none_of_wide ⟨u.id, u.email, now + 86400000⟩ hw]
    · have he := encodeToken_of_notWide ⟨u.id, u.email, now + 86400000⟩ hnw
      rw [he]
      exact ⟨rfl, jsonDecode_encodeToken _ _ he⟩

/-- Claim C4, witness: the seeded demo login succeeds with a token
decoding to subject id 1 and expiry 24 hours after time zero; a wrong
password fails; a matched email that is a lone surrogate still logs in
(it is escaped to ASCII before btoa); a matched email with a raw
non-surrogate unit above 255 makes the call reject. -/
theorem claim_C4_witness :
    loginAPI ⟨jstr "demo@example.com", jstr "demo123"⟩ mockUsers 0 =
      some (.success (jstr "Login successful") (demoToken 86400000) demoPublic) ∧
    jsonDecode (demoToken 86400000) = some (payloadObj (demoPayload 86400000)) ∧
    loginAPI ⟨jstr "demo@example.com", jstr "wrong"⟩ mockUsers 0 =
      some (.failure (jstr "Invalid email or password")) ∧
    loginAPI ⟨[55296], jstr "pw"⟩ [⟨3, jstr "u", [55296], jstr "pw", none⟩] 0 =
      some (.success (jstr "Login successful")
        (b64encode (jsonOfPayload ⟨3, [55296], 86400000⟩)) ⟨3, jstr "u", [55296], none⟩) ∧
    loginAPI ⟨[256], jstr "pw"⟩ [⟨3, jstr "u", [256], jstr "pw", none⟩] 0 = none := by
  refine ⟨?_, ?_, ?_, ?_, ?_⟩
  · exact (((claim_C4 ⟨jstr "demo@example.com", jstr "demo123"⟩ mockUsers 0).2
      ⟨1, jstr "demo", jstr "demo@example.com", jstr "demo123", none⟩ (by decide)).2
      (by decide)).1
  · exact (((claim_C4 ⟨jstr "demo@example.com", jstr "demo123"⟩ mockUsers 0).2
      ⟨1, jstr "demo", jstr "demo@example.com", jstr "demo123", none⟩ (by decide)).2
      (by decide)).2
  · exact (claim_C4 ⟨jstr "demo@example.com", jstr "wrong"⟩ mockUsers 0).1.mpr (by decide)
  · exact (((claim_C4 ⟨[55296], jstr "pw"⟩ [⟨3, jstr "u", [55296], jstr "pw", none⟩] 0).2
      ⟨3, jstr "u", [55296], jstr "pw", none⟩ (by decide)).2 (by decide)).1
  · exact ((claim_C4 ⟨[256], jstr "pw"⟩ [⟨3, jstr "u", [256], jstr "pw", none⟩] 0).2
      ⟨3, jstr "u", [256], jstr "pw", none⟩ (by decide)).1 (by decide)

/-- Claim C8: token encoding is a reversible plain serialization.  For
every payload whose encoding succeeds, JSON.parse of atob of the token
returns a value whose userId, email and exp properties are exactly the
encoded subject id, email and expiry; and the decode both verify
operations perform fails precisely when the input is not the base64 of a
well-formed JSON text (well-formedness stated by the grammar checker
written from the ECMA-404 productions). -/
theorem claim_C8 : (∀ (p : TokenPayload) (t : List Nat), encodeToken p = some t →
    ∃ v, jsonDecode t = some v ∧
      jsGetField v (jstr "userId") = some (JsonValue.num (p.userId : ℚ)) ∧
      jsGetField v (jstr "email") = some (JsonValue.str p.email) ∧
      jsGetField v (jstr "exp") = some (JsonValue.num (p.exp : ℚ))) ∧
    (∀ s : List Nat, jsonDecode s = none ↔
      ¬∃ j, atobJS s = some j ∧ jsonTextOk j = true) := by
  constructor
  · intro p t h
    exact ⟨payloadObj p, jsonDecode_encodeToken p t h, payloadObj_get_userId p,
      payloadObj_get_email p, payloadObj_get_exp p⟩
  · intro s
    unfold jsonDecode
    cases ha : atobJS s with
    | none =>
        simp
    | some j =>
        rw [Option.some_bind]
        constructor
        · intro h hex
          obtain ⟨j2, hj2, hok⟩ := hex
          injection hj2 with hjj
          subst hjj
          rw [jsonTextOk_eq, h] at hok
          exact Bool.noConfusion hok
        · intro hne
          cases hp : jsonParse j with
          | none => rfl
          | some v =>
              exact absurd ⟨j, rfl, by rw [jsonTextOk_eq, hp]; rfl⟩ hne

/-- Claim C8, witness: a concrete round trip through the demo token; the
bang-sign string is rejected (not base64); and the base64 of the
two-character text of an empty object decodes successfully, as it is a
well-formed JSON text even though it is not a token shape the encoder
ever emits. -/
theorem claim_C8_witness :
    (∃ v, jsonDecode (demoToken 99) = some v ∧
      jsGetField v (jstr "userId") = some (JsonValue.num ((1 : Int) : ℚ)) ∧
      jsGetField v (jstr "email") = some (JsonValue.str (jstr "demo@example.com")) ∧
      jsGetField v (jstr "exp") = some (JsonValue.num ((99 : Int) : ℚ))) ∧
    jsonDecode badToken = none ∧
    ¬jsonDecode (b64encode (jstr "\x7b\x7d")) = none := by
  refine ⟨?_, ?_, ?_⟩
  · exact claim_C8.1 (demoPayload 99) (demoToken 99) (by decide)
  · refine (claim_C8.2 badToken).mpr ?_
    intro hex
    obtain ⟨j, hj, _⟩ := hex
    rw [show atobJS badToken = none by decide] at hj
    exact Option.noConfusion hj
  · intro h
    exact absurd ⟨jstr "\x7b\x7d", by decide, by decide⟩ ((claim_C8.2 _).mp h)
